import Mathlib

/-!
# mackerel-plugin-sidekiq: the metrics aggregation of `lib/sidekiq.go`

A shallow embedding of `src/mackerel-plugin-sidekiq/lib/sidekiq.go`.

* Go strings are Lean `String`s, `uint64` values are `Nat`s reduced modulo `2 ^ 64`
  where the source can wrap, `int64` replies are `Int`s.
* The Redis client (`github.com/go-redis/redis`) is a record of pure functions, one per
  command the plugin issues; each returns what `.Result()` returns in Go: the value
  together with the error. One call of `FetchMetrics` sees one state of the store: a
  command answers the same whenever it is issued.
* `strconv.ParseUint` and the two `float64` operations of the plugin are modelled
  exactly; `encoding/json` and the clock are parameters (`Runtime`).
* A `map[string]interface{}` is a list of key/value pairs with pairwise different keys;
  `m[k] = v` is `Metrics.assign`.
* A run-time panic is the `Except.error` of `Except GoPanic`; what the plugin writes to
  stderr is left out.
-/

set_option autoImplicit false

namespace Sidekiq

/-! ## The Go runtime pieces the plugin uses -/

/-- The two's-complement size of `uint64`. -/
def uint64Size : Nat := 2 ^ 64

/-- The largest `uint64`. -/
def maxUint64 : Nat := 2 ^ 64 - 1

/-- The errors `strconv.ParseUint` reports. -/
inductive NumError where
  | ErrSyntax
  | ErrRange
  deriving DecidableEq, Repr

/-- The digit loop of `strconv.ParseUint(s, 10, 64)`: `n` is the value read so far.
A character that is no decimal digit ends the loop with `0` and a syntax error, a value
that does not fit 64 bits ends it with `maxUint64` and a range error. -/
def parseUintLoop : List Char → Nat → Nat × Option NumError
  | [], n => (n, none)
  | c :: cs, n =>
    if c.isDigit then
      let d := c.toNat - 48
      -- cutoff = maxUint64/10 + 1: the smallest number whose tenfold overflows
      if n ≥ maxUint64 / 10 + 1 then (maxUint64, some NumError.ErrRange)
      else
        let n10 := n * 10
        let n1 := (n10 + d) % uint64Size
        if n1 < n10 ∨ n1 > maxUint64 then (maxUint64, some NumError.ErrRange)
        else parseUintLoop cs n1
    else (0, some NumError.ErrSyntax)

/-- Go's `strconv.ParseUint(s, 10, 64)`: the value and the error. -/
def ParseUint (s : String) : Nat × Option NumError :=
  if s = "" then (0, some NumError.ErrSyntax) else parseUintLoop s.data 0

/-- Go's conversion `uint64(v)` of an `int64`. -/
def uint64OfInt64 (v : Int) : Nat := (v % (2 ^ 64 : Int)).toNat

/-! ## The Redis client -/

/-- The errors of a Redis command: `Nil` is go-redis's `redis.Nil` (key not found), `other`
is every other error (connection, protocol). -/
inductive RedisError where
  | Nil
  | other (msg : String)
  deriving DecidableEq, Repr

/-- Go's `error` as the client returns it: `none` is `nil`. -/
abbrev Err := Option RedisError

/-- The commands of `*redis.Client` the plugin issues, each with the pair that
`.Result()` returns. -/
structure Client where
  Get : String → String × Err
  ZCard : String → Int × Err
  SMembers : String → List String × Err
  HGet : String → String → String × Err
  LLen : String → Int × Err
  LRange : String → Int → Int → List String × Err

/-- The Go struct `SidekiqPlugin` (its `Prefix` field is only read by `MetricKeyPrefix`). -/
structure SidekiqPlugin where
  Client : Client
  Namespace : String

namespace SidekiqPlugin

/-- Go `func (sp SidekiqPlugin) get(key string) uint64`. -/
def get (sp : SidekiqPlugin) (key : String) : Nat :=
  let (val, err) := sp.Client.Get key
  if err = some RedisError.Nil then 0
  else (ParseUint val).1

/-- Go `func (sp SidekiqPlugin) zCard(key string) uint64`. -/
def zCard (sp : SidekiqPlugin) (key : String) : Nat :=
  let (val, err) := sp.Client.ZCard key
  if err = some RedisError.Nil then 0
  else uint64OfInt64 val

/-- Go `func (sp SidekiqPlugin) sMembers(key string) []string`. -/
def sMembers (sp : SidekiqPlugin) (key : String) : List String :=
  let (val, err) := sp.Client.SMembers key
  if err = some RedisError.Nil then []
  else val

/-- Go `func (sp SidekiqPlugin) hGet(key string, field string) uint64`. -/
def hGet (sp : SidekiqPlugin) (key : String) (field : String) : Nat :=
  let (val, err) := sp.Client.HGet key field
  if err = some RedisError.Nil then 0
  else (ParseUint val).1

/-- Go `func (sp SidekiqPlugin) lLen(key string) uint64`. -/
def lLen (sp : SidekiqPlugin) (key : String) : Nat :=
  let (val, err) := sp.Client.LLen key
  if err = some RedisError.Nil then 0
  else uint64OfInt64 val

end SidekiqPlugin

/-- Go `func addNamespace(namespace string, key string) string`. -/
def addNamespace (ns : String) (key : String) : String :=
  if ns = "" then key
  else ns ++ ":" ++ key

/-- Go `func inject(slice []uint64, base uint64) uint64`: `base += e` wraps at `2 ^ 64`. -/
def inject (slice : List Nat) (base : Nat) : Nat :=
  slice.foldl (fun base e => (base + e) % uint64Size) base

namespace SidekiqPlugin

/-- Go `getProcessed`. -/
def getProcessed (sp : SidekiqPlugin) : Nat :=
  let key := addNamespace sp.Namespace "stat:processed"
  sp.get key

/-- Go `getFailed`. -/
def getFailed (sp : SidekiqPlugin) : Nat :=
  let key := addNamespace sp.Namespace "stat:failed"
  sp.get key

/-- Go `getBusy`: the slice starts as `make([]uint64, 10)` and grows by `append`. -/
def getBusy (sp : SidekiqPlugin) : Nat :=
  let key := addNamespace sp.Namespace "processes"
  let processes := sp.sMembers key
  let busies := List.replicate 10 0
  let busies := processes.foldl
    (fun busies e =>
      let e := addNamespace sp.Namespace e
      busies ++ [sp.hGet e "busy"]) busies
  inject busies 0

/-- Go `getEnqueued`. -/
def getEnqueued (sp : SidekiqPlugin) : Nat :=
  let key := addNamespace sp.Namespace "queues"
  let queues := sp.sMembers key
  let queuesLlens := List.replicate 10 0
  let pfx := addNamespace sp.Namespace "queue:"
  let queuesLlens := queues.foldl
    (fun queuesLlens e => queuesLlens ++ [sp.lLen (pfx ++ e)]) queuesLlens
  inject queuesLlens 0

/-- Go `getSchedule`. -/
def getSchedule (sp : SidekiqPlugin) : Nat :=
  let key := addNamespace sp.Namespace "schedule"
  sp.zCard key

/-- Go `getRetry`. -/
def getRetry (sp : SidekiqPlugin) : Nat :=
  let key := addNamespace sp.Namespace "retry"
  sp.zCard key

/-- Go `getDead`. -/
def getDead (sp : SidekiqPlugin) : Nat :=
  let key := addNamespace sp.Namespace "dead"
  sp.zCard key

end SidekiqPlugin

/-! ## float64

The plugin converts an `int64` to `float64` and subtracts two `float64` values. Every
finite `float64` is an integer multiple of `2 ^ (-1074)`, so a finite value is kept as
that integer; the sign of a zero is not kept (the plugin's only operation on a decoded
number is `now - x`, whose result does not depend on it). -/

/-- A `float64`: `finite k` is the number `k * 2 ^ (-1074)`. -/
inductive Float64 where
  | finite (k : Int)
  | inf (neg : Bool)
  | nan
  deriving DecidableEq, Repr

namespace Float64

/-- The unit in which finite values are counted: `1.0` is `finite (2 ^ 1074)`. -/
def one : Nat := 2 ^ 1074

/-- The first `fuel` steps of counting the binary digits of `a`. -/
def bitLenAux : Nat → Nat → Nat
  | 0, _ => 0
  | fuel + 1, a => if a = 0 then 0 else bitLenAux fuel (a / 2) + 1

/-- The number of binary digits of `a` (`0` for `0`). -/
def bitLen (a : Nat) : Nat := bitLenAux a a

/-- Round a magnitude to 53 significant bits, to nearest, ties to even. -/
def roundNat (a : Nat) : Nat :=
  let s := bitLen a - 53
  if s = 0 then a
  else
    let q := a / 2 ^ s
    let r := a % 2 ^ s
    let h := 2 ^ (s - 1)
    let q := if h < r ∨ (r = h ∧ q % 2 = 1) then q + 1 else q
    q * 2 ^ s

/-- IEEE 754 rounding of the exact number `k * 2 ^ (-1074)`: magnitudes that round to
`2 ^ 1024` or more overflow to an infinity. -/
def round (k : Int) : Float64 :=
  let a := roundNat k.natAbs
  if 2 ^ 2098 ≤ a then inf (decide (k < 0))
  else finite (if k < 0 then -(a : Int) else (a : Int))

/-- Go's conversion `float64(n)` of an `int64`. -/
def ofInt64 (n : Int) : Float64 := round (n * (one : Int))

/-- Go's `x - y` on `float64`. -/
def sub : Float64 → Float64 → Float64
  | finite a, finite b => round (a - b)
  | finite _, inf s => inf (!s)
  | inf s, finite _ => inf s
  | inf s, inf t => if s = t then nan else inf s
  | nan, _ => nan
  | _, nan => nan

/-- The Go constant `0.0`. -/
def zero : Float64 := finite 0

/-- Whether `x < 0`. -/
def isNegative : Float64 → Bool
  | finite k => decide (k < 0)
  | inf s => s
  | nan => false

end Float64

/-! ## encoding/json and the clock -/

/-- What `encoding/json` stores in an `interface{}`: `nil`, `bool`, `float64`, `string`,
`[]interface{}` or `map[string]interface{}`. -/
inductive JVal where
  | null
  | bool (b : Bool)
  | number (x : Float64)
  | string (s : String)
  | array (elems : List JVal)
  | object (fields : List (String × JVal))

/-- The library calls of `getQueueLatency` that are not Redis commands.

* `Unmarshal data` is `json.Unmarshal([]byte(data), &job)` for a fresh
  `var job map[string]interface{}`: `none` when it returns an error, otherwise the
  entries of `job` afterwards (none for the document `null`, which leaves `job` nil).
* `Unix i` is what `time.Now().Unix()` returns in iteration `i` of the loop over the
  queues (the loop reads the clock at most once per iteration). -/
structure Runtime where
  Unmarshal : String → Option (List (String × JVal))
  Unix : Nat → Int
  /-- `Unix()` returns an `int64`. -/
  Unix_int64 : ∀ i, -2 ^ 63 ≤ Unix i ∧ Unix i < 2 ^ 63

/-- A run-time panic. -/
inductive GoPanic where
  /-- The single-value type assertion `x.(float64)` on a value of another type. -/
  | typeAssertion
  deriving DecidableEq, Repr

/-! ## The metrics mapping -/

/-- The values the plugin stores in its `map[string]interface{}`. -/
inductive Value where
  | uint64 (n : Nat)
  | float64 (x : Float64)
  deriving DecidableEq, Repr

/-- A Go `map[string]interface{}`: its entries, keys pairwise different. -/
abbrev Metrics := List (String × Value)

namespace Metrics

/-- Go `make(map[string]interface{}, n)`. -/
def empty : Metrics := []

/-- Go `m[k] = v`. -/
def assign (m : Metrics) (k : String) (v : Value) : Metrics :=
  (k, v) :: m.filter (fun e => e.1 != k)

/-- Go `v, ok := m[k]`. -/
def value? (m : Metrics) (k : String) : Option Value :=
  m.lookup k

/-- The keys of the map. -/
def names (m : Metrics) : List String :=
  m.map Prod.fst

/-- The keys of a Go map are pairwise different. -/
def WF (m : Metrics) : Prop := m.names.Nodup

end Metrics

/-- Go `func metricName(names ...string) string`. -/
def metricName (names : List String) : String :=
  ".".intercalate names

namespace SidekiqPlugin

/-- Go `getProcessedFailed`. -/
def getProcessedFailed (sp : SidekiqPlugin) : Metrics :=
  let data := Metrics.empty
  let data := data.assign "processed" (Value.uint64 sp.getProcessed)
  let data := data.assign "failed" (Value.uint64 sp.getFailed)
  data

/-- Go `getStats`: a tag that matches no `case` stores nothing. -/
def getStats (sp : SidekiqPlugin) (field : List String) : Metrics :=
  field.foldl
    (fun stats e =>
      match e with
      | "busy" => stats.assign e (Value.uint64 sp.getBusy)
      | "enqueued" => stats.assign e (Value.uint64 sp.getEnqueued)
      | "schedule" => stats.assign e (Value.uint64 sp.getSchedule)
      | "retry" => stats.assign e (Value.uint64 sp.getRetry)
      | "dead" => stats.assign e (Value.uint64 sp.getDead)
      | _ => stats)
    Metrics.empty

/-- The body of the loop of `getQueueLatency` for queue `q` in iteration `i`:
`none` is `continue` without an entry, `some v` is `latency[metricName(...)] = v`. -/
def queueLatencyStep (sp : SidekiqPlugin) (rt : Runtime) (pfx : String) (i : Nat)
    (q : String) : Except GoPanic (Option Value) :=
  -- an error of LRange is only reported on stderr
  let (queuesLRange, _err) := sp.Client.LRange (pfx ++ q) (-1) (-1)
  match queuesLRange with
  | [] => pure (some (Value.float64 Float64.zero))
  | entry :: _ =>
    match rt.Unmarshal entry with
    | none => pure none
    | some job =>
      let now := Float64.ofInt64 (rt.Unix i)
      match job.lookup "enqueued_at" with
      | some enqueuedAt =>
        match enqueuedAt with
        | JVal.number thence => pure (some (Value.float64 (Float64.sub now thence)))
        | _ => throw GoPanic.typeAssertion
      | none =>
        let thence := now
        pure (some (Value.float64 (Float64.sub now thence)))

/-- The loop `for _, q := range queues` of `getQueueLatency`, from iteration `i` on. -/
def queueLatencyLoop (sp : SidekiqPlugin) (rt : Runtime) (pfx : String) :
    List String → Nat → Metrics → Except GoPanic Metrics
  | [], _, latency => pure latency
  | q :: queues, i, latency =>
    match queueLatencyStep sp rt pfx i q with
    | Except.error p => throw p
    | Except.ok none => queueLatencyLoop sp rt pfx queues (i + 1) latency
    | Except.ok (some v) =>
      queueLatencyLoop sp rt pfx queues (i + 1)
        (latency.assign (metricName ["QueueLatency", q]) v)

/-- Go `getQueueLatency`. -/
def getQueueLatency (sp : SidekiqPlugin) (rt : Runtime) : Except GoPanic Metrics :=
  let latency := Metrics.empty
  let key := addNamespace sp.Namespace "queues"
  let queues := sp.sMembers key
  let pfx := addNamespace sp.Namespace "queue:"
  queueLatencyLoop sp rt pfx queues 0 latency

/-- The closure `m` of `FetchMetrics`: `for _, c := range m { for k, v := range c { r[k] = v } }`. -/
def mergeMaps (ms : List Metrics) : Metrics :=
  ms.foldl (fun r c => c.foldl (fun r kv => r.assign kv.1 kv.2) r) Metrics.empty

/-- The tags `FetchMetrics` passes to `getStats`. -/
def statsField : List String := ["busy", "enqueued", "schedule", "retry", "dead", "latency"]

/-- Go `FetchMetrics`: the mapping and the `error`, which is always `nil`. -/
def FetchMetrics (sp : SidekiqPlugin) (rt : Runtime) : Except GoPanic (Metrics × Err) := do
  let field := statsField
  let stats := sp.getStats field
  let pf := sp.getProcessedFailed
  let latency ← sp.getQueueLatency rt
  let m := mergeMaps [stats, pf, latency]
  pure (m, none)

end SidekiqPlugin

/-! ## The store as the claims speak of it -/

/-- The seven fixed metric names. -/
def fixedNames : List String :=
  ["processed", "failed", "busy", "enqueued", "schedule", "retry", "dead"]

/-- A transport failure: an error other than key-not-found. -/
def IsFailure (e : Err) : Prop := ∃ msg, e = some (RedisError.other msg)

/-- No transport failure: the reply has no error, or the error is key-not-found. -/
def NoFailure (e : Err) : Prop := e = none ∨ e = some RedisError.Nil

namespace Client

/-- Every read of the store succeeds (key-not-found counts as a success). -/
structure ReadsSucceed (c : Client) : Prop where
  Get : ∀ k, NoFailure (c.Get k).2
  ZCard : ∀ k, NoFailure (c.ZCard k).2
  SMembers : ∀ k, NoFailure (c.SMembers k).2
  HGet : ∀ k f, NoFailure (c.HGet k f).2
  LLen : ∀ k, NoFailure (c.LLen k).2
  LRange : ∀ k a b, NoFailure (c.LRange k a b).2

/-- The members of the set at `key`; a missing set has none. -/
def members (c : Client) (key : String) : List String :=
  match c.SMembers key with
  | (val, none) => val
  | (_, some _) => []

/-- The field `field` of the hash at `key`, when the hash and the field exist. -/
def hashField (c : Client) (key field : String) : Option String :=
  match c.HGet key field with
  | (val, none) => some val
  | (_, some _) => none

/-- The length of the list at `key`; a missing list has length `0`. -/
def listLength (c : Client) (key : String) : Nat :=
  match c.LLen key with
  | (val, none) => uint64OfInt64 val
  | (_, some _) => 0

/-- The oldest entry of the list at `key` (index `-1`), when the list has one. -/
def oldestEntry (c : Client) (key : String) : Option String :=
  (c.LRange key (-1) (-1)).1.head?

end Client

/-- The namespaces `queue`, `queue:queue`, `queue:queue:queue`, and so on: the only ones
for which `ns ++ ":queue:" ++ q` and `"queue:" ++ ns ++ ":" ++ q` are the same string. -/
def queueChain : Nat → String
  | 0 => "queue"
  | k + 1 => "queue:" ++ queueChain k

/-- The number a `busy` field stands for: what `strconv.ParseUint` reads, `0` when the
field is missing. -/
def busyCount : Option String → Nat
  | none => 0
  | some s => (ParseUint s).1

namespace SidekiqPlugin

/-- The names in the QueueSet, as `getQueueLatency` reads them. -/
def queues (sp : SidekiqPlugin) : List String :=
  sp.sMembers (addNamespace sp.Namespace "queues")

/-- The key of the list of queue `q`. -/
def queueKey (sp : SidekiqPlugin) (q : String) : String :=
  addNamespace sp.Namespace ("queue:" ++ q)

/-- The lengths of the lists of the members of the QueueSet, as the store holds them. -/
def queueLengths (sp : SidekiqPlugin) : List Nat :=
  (sp.Client.members (addNamespace sp.Namespace "queues")).map
    (fun q => sp.Client.listLength (addNamespace sp.Namespace ("queue:" ++ q)))

/-- No queue's oldest entry decodes to an object whose `enqueued_at` is not a number. -/
def EnqueuedAtTyped (sp : SidekiqPlugin) (rt : Runtime) : Prop :=
  ∀ q ∈ sp.queues, ∀ entry job v,
    sp.Client.oldestEntry (sp.queueKey q) = some entry →
    rt.Unmarshal entry = some job →
    job.lookup "enqueued_at" = some v →
    ∃ t, v = JVal.number t

/-- The empty queue system: no processes, no queues, the two counters and the three
sorted sets absent. Redis answers `ZCARD` and `SMEMBERS` on a missing key with `0` and
the empty list, go-redis answers `GET` on a missing key with `redis.Nil`. -/
structure EmptySystem (sp : SidekiqPlugin) : Prop where
  processes : sp.Client.SMembers (addNamespace sp.Namespace "processes") = ([], none) ∨
    (sp.Client.SMembers (addNamespace sp.Namespace "processes")).2 = some RedisError.Nil
  queues : sp.Client.SMembers (addNamespace sp.Namespace "queues") = ([], none) ∨
    (sp.Client.SMembers (addNamespace sp.Namespace "queues")).2 = some RedisError.Nil
  processed : (sp.Client.Get (addNamespace sp.Namespace "stat:processed")).2 = some RedisError.Nil
  failed : (sp.Client.Get (addNamespace sp.Namespace "stat:failed")).2 = some RedisError.Nil
  schedule : sp.Client.ZCard (addNamespace sp.Namespace "schedule") = (0, none) ∨
    (sp.Client.ZCard (addNamespace sp.Namespace "schedule")).2 = some RedisError.Nil
  retry : sp.Client.ZCard (addNamespace sp.Namespace "retry") = (0, none) ∨
    (sp.Client.ZCard (addNamespace sp.Namespace "retry")).2 = some RedisError.Nil
  dead : sp.Client.ZCard (addNamespace sp.Namespace "dead") = (0, none) ∨
    (sp.Client.ZCard (addNamespace sp.Namespace "dead")).2 = some RedisError.Nil

end SidekiqPlugin

/-! ## Concrete stores -/

/-- A store with namespace `app`: two processes (`busy` 3 and 5) and three queues,
`default` (four jobs, the oldest enqueued at 1700000000), `low` (empty) and `broken`
(one job whose payload is no JSON document). -/
def sampleClient : Client where
  Get := fun k =>
    if k = "app:stat:processed" then ("12", none) else ("", some RedisError.Nil)
  ZCard := fun k => if k = "app:schedule" then (2, none) else (0, none)
  SMembers := fun k =>
    if k = "app:processes" then (["p1", "p2"], none)
    else if k = "app:queues" then (["default", "low", "broken"], none)
    else ([], none)
  HGet := fun k f =>
    if k = "app:p1" ∧ f = "busy" then ("3", none)
    else if k = "app:p2" ∧ f = "busy" then ("5", none)
    else ("", some RedisError.Nil)
  LLen := fun k =>
    if k = "app:queue:default" then (4, none)
    else if k = "app:queue:broken" then (1, none)
    else (0, none)
  LRange := fun k _ _ =>
    if k = "app:queue:default" then (["\x7b\"enqueued_at\":1700000000\x7d"], none)
    else if k = "app:queue:broken" then (["not json"], none)
    else ([], none)

/-- The plugin on `sampleClient`. -/
def samplePlugin : SidekiqPlugin := ⟨sampleClient, "app"⟩

/-- What `json.Unmarshal` makes of the documents of the concrete stores; it is consulted
on no other document. -/
def sampleUnmarshal (data : String) : Option (List (String × JVal)) :=
  if data = "\x7b\"enqueued_at\":1700000000\x7d" then
    some [("enqueued_at", JVal.number (Float64.ofInt64 1700000000))]
  else if data = "\x7b\"enqueued_at\":\"2023-11-14\"\x7d" then
    some [("enqueued_at", JVal.string "2023-11-14")]
  else none

/-- A runtime whose clock stands at 1700000042. -/
def sampleRuntime : Runtime where
  Unmarshal := sampleUnmarshal
  Unix := fun _ => 1700000042
  Unix_int64 := fun _ => by constructor <;> norm_num

/-- A store that cannot be reached: every command returns the zero value and an error
that is not `redis.Nil`. -/
def downClient : Client where
  Get := fun _ => ("", some (RedisError.other "dial tcp: connection refused"))
  ZCard := fun _ => (0, some (RedisError.other "dial tcp: connection refused"))
  SMembers := fun _ => ([], some (RedisError.other "dial tcp: connection refused"))
  HGet := fun _ _ => ("", some (RedisError.other "dial tcp: connection refused"))
  LLen := fun _ => (0, some (RedisError.other "dial tcp: connection refused"))
  LRange := fun _ _ _ => ([], some (RedisError.other "dial tcp: connection refused"))

/-- The plugin on `downClient`, no namespace. -/
def downPlugin : SidekiqPlugin := ⟨downClient, ""⟩

/-- A store without namespace and with two queues: the oldest job of `broken` is no JSON
document, the oldest job of `mailers` has a string as its `enqueued_at`. -/
def mistypedClient : Client where
  Get := fun _ => ("", some RedisError.Nil)
  ZCard := fun _ => (0, none)
  SMembers := fun k => if k = "queues" then (["broken", "mailers"], none) else ([], none)
  HGet := fun _ _ => ("", some RedisError.Nil)
  LLen := fun k =>
    if k = "queue:broken" then (1, none)
    else if k = "queue:mailers" then (1, none)
    else (0, none)
  LRange := fun k _ _ =>
    if k = "queue:broken" then (["not json"], none)
    else if k = "queue:mailers" then (["\x7b\"enqueued_at\":\"2023-11-14\"\x7d"], none)
    else ([], none)

/-- The plugin on `mistypedClient`. -/
def mistypedPlugin : SidekiqPlugin := ⟨mistypedClient, ""⟩

/-- A store that holds nothing. -/
def emptyClient : Client where
  Get := fun _ => ("", some RedisError.Nil)
  ZCard := fun _ => (0, none)
  SMembers := fun _ => ([], none)
  HGet := fun _ _ => ("", some RedisError.Nil)
  LLen := fun _ => (0, none)
  LRange := fun _ _ _ => ([], none)

/-- The plugin on `emptyClient`, namespace `app`. -/
def emptyPlugin : SidekiqPlugin := ⟨emptyClient, "app"⟩

/-! ## Lemmas on the metrics mapping -/

namespace Metrics

theorem value?_empty (k : String) : Metrics.empty.value? k = none := rfl

theorem lookup_filter_ne (m : Metrics) {k k0 : String} (h : k ≠ k0) :
    (m.filter (fun e => e.1 != k0)).lookup k = m.lookup k := by
  induction m with
  | nil => rfl
  | cons e m ih =>
    obtain ⟨a, b⟩ := e
    by_cases ha : a = k0
    · subst ha
      have hk : (k == a) = false := by simpa using h
      simp [List.filter_cons, List.lookup_cons, hk, ih]
    · have hne : (a != k0) = true := by simpa using ha
      simp only [List.filter_cons, hne, if_true, List.lookup_cons, ih]

theorem value?_assign (m : Metrics) (k0 : String) (v : Value) (k : String) :
    (m.assign k0 v).value? k = if k = k0 then some v else m.value? k := by
  unfold Metrics.assign Metrics.value?
  by_cases h : k = k0
  · subst h; simp
  · have hk : (k == k0) = false := by simpa using h
    simp [List.lookup_cons, hk, h, lookup_filter_ne m h]

theorem value?_assign_self (m : Metrics) (k : String) (v : Value) :
    (m.assign k v).value? k = some v := by
  simp [value?_assign]

theorem value?_assign_ne (m : Metrics) {k k0 : String} (v : Value) (h : k ≠ k0) :
    (m.assign k0 v).value? k = m.value? k := by
  simp [value?_assign, h]

theorem mem_names_iff (m : Metrics) (k : String) : k ∈ m.names ↔ (m.value? k).isSome = true := by
  unfold Metrics.names Metrics.value?
  rw [List.lookup_isSome_iff]
  constructor
  · intro h
    obtain ⟨p, hp, rfl⟩ := List.mem_map.mp h
    exact ⟨p, hp, by simp⟩
  · rintro ⟨p, hp, hk⟩
    have : k = p.1 := by simpa using hk
    exact List.mem_map.mpr ⟨p, hp, this.symm⟩

theorem not_mem_names_iff (m : Metrics) (k : String) : k ∉ m.names ↔ m.value? k = none := by
  rw [mem_names_iff]
  cases m.value? k <;> simp

theorem mem_names_assign (m : Metrics) (k0 : String) (v : Value) (k : String) :
    k ∈ (m.assign k0 v).names ↔ k = k0 ∨ k ∈ m.names := by
  rw [mem_names_iff, mem_names_iff, value?_assign]
  by_cases h : k = k0 <;> simp [h]

theorem wf_empty : Metrics.empty.WF := List.nodup_nil

theorem wf_assign (m : Metrics) (k : String) (v : Value) (h : m.WF) : (m.assign k v).WF := by
  unfold WF Metrics.names Metrics.assign at *
  rw [List.map_cons, List.nodup_cons]
  constructor
  · intro hmem
    obtain ⟨p, hp, hk⟩ := List.mem_map.mp hmem
    have := (List.mem_filter.mp hp).2
    simp at this
    exact this hk
  · exact (List.filter_sublist m).map Prod.fst |>.nodup h

theorem lookup_eq_some_iff_mem (m : Metrics) (h : m.WF) (k : String) (v : Value) :
    m.lookup k = some v ↔ (k, v) ∈ m := by
  induction m with
  | nil => simp
  | cons e m ih =>
    obtain ⟨a, b⟩ := e
    have hnd : a ∉ Metrics.names m ∧ (Metrics.names m).Nodup := by
      simpa [WF, Metrics.names] using h
    by_cases hk : k = a
    · subst hk
      simp only [List.lookup_cons_self, Option.some.injEq, List.mem_cons, Prod.mk.injEq,
        true_and]
      constructor
      · intro hb; exact Or.inl hb.symm
      · rintro (hb | hmem)
        · exact hb.symm
        · exact absurd (List.mem_map.mpr ⟨(k, v), hmem, rfl⟩) hnd.1
    · have hk2 : (k == a) = false := by simpa using hk
      simp only [List.lookup_cons, hk2, List.mem_cons, Prod.mk.injEq, hk, false_and, false_or]
      exact ih hnd.2

theorem value?_reverse (m : Metrics) (h : m.WF) (k : String) :
    Metrics.value? m.reverse k = m.value? k := by
  have hr : Metrics.WF m.reverse := by
    unfold WF Metrics.names at *
    rw [List.map_reverse]
    exact List.nodup_reverse.mpr h
  apply Option.ext
  intro v
  unfold Metrics.value?
  rw [Option.mem_def, Option.mem_def, lookup_eq_some_iff_mem _ hr, lookup_eq_some_iff_mem _ h, List.mem_reverse]

/-- The inner loop of the merge: `for k, v := range c { r[k] = v }`. -/
theorem value?_foldl_assign (c r : Metrics) (k : String) :
    Metrics.value? (c.foldl (fun r kv => Metrics.assign r kv.1 kv.2) r) k
      = (Metrics.value? c.reverse k).or (r.value? k) := by
  induction c generalizing r with
  | nil => simp [Metrics.value?]
  | cons e c ih =>
    rw [List.foldl_cons, ih, value?_assign]
    unfold Metrics.value?
    rw [List.reverse_cons, List.lookup_append]
    obtain ⟨a, b⟩ := e
    by_cases hk : k = a
    · subst hk
      cases (List.lookup k c.reverse) <;> simp
    · have hk2 : (k == a) = false := by simpa using hk
      cases (List.lookup k c.reverse) <;> simp [List.lookup_cons, hk, hk2]

theorem wf_foldl_assign (c r : Metrics) (h : r.WF) :
    Metrics.WF (c.foldl (fun r kv => Metrics.assign r kv.1 kv.2) r) := by
  induction c generalizing r with
  | nil => exact h
  | cons e c ih => exact ih _ (wf_assign r e.1 e.2 h)

end Metrics

/-! ## Lemmas on the metric names -/

theorem metricName_queueLatency (q : String) :
    metricName ["QueueLatency", q] = "QueueLatency." ++ q := by
  show "QueueLatency" ++ "." ++ q = "QueueLatency." ++ q
  rw [show ("QueueLatency." : String) = "QueueLatency" ++ "." by decide]

theorem metricName_queueLatency_injective (q₁ q₂ : String)
    (h : metricName ["QueueLatency", q₁] = metricName ["QueueLatency", q₂]) : q₁ = q₂ := by
  rw [metricName_queueLatency, metricName_queueLatency] at h
  have hd := congrArg String.data h
  rw [String.data_append, String.data_append] at hd
  exact String.ext (List.append_cancel_left hd)

theorem metricName_queueLatency_not_fixed (q : String) :
    metricName ["QueueLatency", q] ∉ fixedNames := by
  rw [metricName_queueLatency]
  intro h
  simp only [fixedNames, List.mem_cons, List.mem_singleton, List.not_mem_nil, or_false] at h
  rcases h with h | h | h | h | h | h | h <;>
  · have hd := congrArg String.data h
    rw [String.data_append] at hd
    simp at hd

/-! ## Lemmas on the sub-results -/

namespace SidekiqPlugin

theorem getProcessedFailed_value? (sp : SidekiqPlugin) (k : String) :
    sp.getProcessedFailed.value? k =
      if k = "failed" then some (Value.uint64 sp.getFailed)
      else if k = "processed" then some (Value.uint64 sp.getProcessed)
      else none := by
  simp [getProcessedFailed, Metrics.value?_assign, Metrics.value?_empty]

theorem getProcessedFailed_wf (sp : SidekiqPlugin) : sp.getProcessedFailed.WF :=
  Metrics.wf_assign _ _ _ (Metrics.wf_assign _ _ _ Metrics.wf_empty)

theorem getStats_value? (sp : SidekiqPlugin) (k : String) :
    (sp.getStats statsField).value? k =
      if k = "dead" then some (Value.uint64 sp.getDead)
      else if k = "retry" then some (Value.uint64 sp.getRetry)
      else if k = "schedule" then some (Value.uint64 sp.getSchedule)
      else if k = "enqueued" then some (Value.uint64 sp.getEnqueued)
      else if k = "busy" then some (Value.uint64 sp.getBusy)
      else none := by
  simp [getStats, statsField, Metrics.value?_assign, Metrics.value?_empty]

theorem getStats_wf (sp : SidekiqPlugin) (field : List String) : (sp.getStats field).WF := by
  unfold getStats
  have aux : ∀ acc : Metrics, Metrics.WF acc → Metrics.WF (List.foldl
      (fun stats e =>
        match e with
        | "busy" => Metrics.assign stats e (Value.uint64 sp.getBusy)
        | "enqueued" => Metrics.assign stats e (Value.uint64 sp.getEnqueued)
        | "schedule" => Metrics.assign stats e (Value.uint64 sp.getSchedule)
        | "retry" => Metrics.assign stats e (Value.uint64 sp.getRetry)
        | "dead" => Metrics.assign stats e (Value.uint64 sp.getDead)
        | _ => stats) acc field) := by
    induction field with
    | nil => exact fun _ h => h
    | cons e field ih =>
      intro acc h
      rw [List.foldl_cons]
      apply ih
      split <;> first | exact Metrics.wf_assign _ _ _ h | exact h
  exact aux _ Metrics.wf_empty

/-! ### The loop of `getQueueLatency` -/

theorem queueLatencyLoop_value?_of_not_mem (sp : SidekiqPlugin) (rt : Runtime) (pfx k : String)
    (qs : List String) (i : Nat) (acc m : Metrics)
    (hk : ∀ q ∈ qs, metricName ["QueueLatency", q] ≠ k)
    (h : queueLatencyLoop sp rt pfx qs i acc = Except.ok m) :
    m.value? k = acc.value? k := by
  induction qs generalizing i acc with
  | nil =>
    simp only [queueLatencyLoop, pure, Except.pure, Except.ok.injEq] at h
    rw [h]
  | cons q qs ih =>
    have hq := hk q (List.mem_cons_self _ _)
    have hqs : ∀ q ∈ qs, metricName ["QueueLatency", q] ≠ k :=
      fun x hx => hk x (List.mem_cons_of_mem _ hx)
    unfold queueLatencyLoop at h
    split at h
    · simp [throw, throwThe, MonadExceptOf.throw, Except.bind] at h
    · exact ih _ _ hqs h
    · rw [ih _ _ hqs h, Metrics.value?_assign_ne _ _ (Ne.symm hq)]

theorem queueLatencyLoop_wf (sp : SidekiqPlugin) (rt : Runtime) (pfx : String)
    (qs : List String) (i : Nat) (acc m : Metrics) (hacc : acc.WF)
    (h : queueLatencyLoop sp rt pfx qs i acc = Except.ok m) : m.WF := by
  induction qs generalizing i acc with
  | nil =>
    simp only [queueLatencyLoop, pure, Except.pure, Except.ok.injEq] at h
    rw [← h]; exact hacc
  | cons q qs ih =>
    unfold queueLatencyLoop at h
    split at h
    · simp [throw, throwThe, MonadExceptOf.throw, Except.bind] at h
    · exact ih _ _ hacc h
    · exact ih _ _ (Metrics.wf_assign _ _ _ hacc) h

theorem queueLatencyLoop_names (sp : SidekiqPlugin) (rt : Runtime) (pfx k : String)
    (qs : List String) (i : Nat) (acc m : Metrics)
    (h : queueLatencyLoop sp rt pfx qs i acc = Except.ok m) (hk : k ∈ m.names) :
    k ∈ acc.names ∨ ∃ q ∈ qs, k = metricName ["QueueLatency", q] := by
  induction qs generalizing i acc with
  | nil =>
    simp only [queueLatencyLoop, pure, Except.pure, Except.ok.injEq] at h
    rw [← h] at hk; exact Or.inl hk
  | cons q qs ih =>
    unfold queueLatencyLoop at h
    split at h
    · simp [throw, throwThe, MonadExceptOf.throw, Except.bind] at h
    · rcases ih _ _ h with h1 | ⟨q', hq', rfl⟩
      · exact Or.inl h1
      · exact Or.inr ⟨q', List.mem_cons_of_mem _ hq', rfl⟩
    · rcases ih _ _ h with h1 | ⟨q', hq', rfl⟩
      · rcases (Metrics.mem_names_assign _ _ _ _).mp h1 with h2 | h2
        · exact Or.inr ⟨q, List.mem_cons_self _ _, h2⟩
        · exact Or.inl h2
      · exact Or.inr ⟨q', List.mem_cons_of_mem _ hq', rfl⟩

/-- The entry of a queue that occurs once in the list: what its iteration stored. -/
theorem queueLatencyLoop_value?_nodup (sp : SidekiqPlugin) (rt : Runtime) (pfx q : String)
    (qs : List String) (i j : Nat) (acc m : Metrics) (hnd : qs.Nodup)
    (hj : qs[j]? = some q)
    (h : queueLatencyLoop sp rt pfx qs i acc = Except.ok m) :
    ∃ r, queueLatencyStep sp rt pfx (i + j) q = Except.ok r ∧
      m.value? (metricName ["QueueLatency", q]) =
        (match r with
         | some v => some v
         | none => acc.value? (metricName ["QueueLatency", q])) := by
  induction qs generalizing i j acc with
  | nil => simp at hj
  | cons q' qs ih =>
    have hnd' := List.nodup_cons.mp hnd
    unfold queueLatencyLoop at h
    cases j with
    | zero =>
      simp only [List.getElem?_cons_zero, Option.some.injEq] at hj
      subst hj
      have hrest : ∀ x ∈ qs, metricName ["QueueLatency", x] ≠ metricName ["QueueLatency", q'] := by
        intro x hx hxe
        exact hnd'.1 (metricName_queueLatency_injective _ _ hxe ▸ hx)
      split at h
      · simp [throw, throwThe, MonadExceptOf.throw, Except.bind] at h
      · rename_i heq
        refine ⟨none, by simpa using heq, ?_⟩
        exact queueLatencyLoop_value?_of_not_mem sp rt pfx _ qs _ _ _ hrest h
      · rename_i v heq
        refine ⟨some v, by simpa using heq, ?_⟩
        rw [queueLatencyLoop_value?_of_not_mem sp rt pfx _ qs _ _ _ hrest h,
          Metrics.value?_assign_self]
    | succ j =>
      simp only [List.getElem?_cons_succ] at hj
      have hne : metricName ["QueueLatency", q] ≠ metricName ["QueueLatency", q'] := by
        intro hxe
        have := metricName_queueLatency_injective _ _ hxe
        subst this
        exact hnd'.1 (List.getElem?_mem hj)
      have hidx : i + (j + 1) = (i + 1) + j := by omega
      rw [hidx]
      split at h
      · simp [throw, throwThe, MonadExceptOf.throw, Except.bind] at h
      · exact ih _ _ _ hnd'.2 hj h
      · obtain ⟨r, hr, hv⟩ := ih _ _ _ hnd'.2 hj h
        refine ⟨r, hr, ?_⟩
        rw [hv, Metrics.value?_assign_ne _ _ hne]

/-- The entry of a queue whose iteration stores the same value whenever it runs. -/
theorem queueLatencyLoop_value?_const (sp : SidekiqPlugin) (rt : Runtime) (pfx q : String)
    (v : Value) (qs : List String) (i : Nat) (acc m : Metrics) (hq : q ∈ qs)
    (hstep : ∀ i, queueLatencyStep sp rt pfx i q = Except.ok (some v))
    (h : queueLatencyLoop sp rt pfx qs i acc = Except.ok m) :
    m.value? (metricName ["QueueLatency", q]) = some v := by
  induction qs generalizing i acc with
  | nil => simp at hq
  | cons q' qs ih =>
    unfold queueLatencyLoop at h
    by_cases hmem : q ∈ qs
    · split at h
      · simp [throw, throwThe, MonadExceptOf.throw, Except.bind] at h
      · exact ih _ _ hmem h
      · exact ih _ _ hmem h
    · have hqq : q = q' := by
        rcases List.mem_cons.mp hq with h1 | h1
        · exact h1
        · exact absurd h1 hmem
      subst hqq
      have hrest : ∀ x ∈ qs, metricName ["QueueLatency", x] ≠ metricName ["QueueLatency", q] := by
        intro x hx hxe
        exact hmem (metricName_queueLatency_injective _ _ hxe ▸ hx)
      rw [hstep i] at h
      simp only at h
      rw [queueLatencyLoop_value?_of_not_mem sp rt pfx _ qs _ _ _ hrest h,
        Metrics.value?_assign_self]

/-- The loop returns when no iteration panics. -/
theorem queueLatencyLoop_ok (sp : SidekiqPlugin) (rt : Runtime) (pfx : String)
    (qs : List String) (i : Nat) (acc : Metrics)
    (hstep : ∀ j q, qs[j]? = some q → ∃ r, queueLatencyStep sp rt pfx (i + j) q = Except.ok r) :
    ∃ m, queueLatencyLoop sp rt pfx qs i acc = Except.ok m := by
  induction qs generalizing i acc with
  | nil => exact ⟨acc, rfl⟩
  | cons q qs ih =>
    obtain ⟨r, hr⟩ := hstep 0 q (by simp)
    have hrest : ∀ j x, qs[j]? = some x →
        ∃ r, queueLatencyStep sp rt pfx (i + 1 + j) x = Except.ok r := by
      intro j x hx
      have := hstep (j + 1) x (by simpa using hx)
      rwa [show i + (j + 1) = i + 1 + j by omega] at this
    unfold queueLatencyLoop
    rw [Nat.add_zero] at hr
    rw [hr]
    cases r with
    | none => exact ih _ _ hrest
    | some v => exact ih _ _ hrest

end SidekiqPlugin

/-! ## Lemmas on float64 -/

namespace Float64

set_option exponentiation.threshold 4000

theorem bitLenAux_le (n : Nat) : ∀ (fuel a : Nat), a < 2 ^ n → bitLenAux fuel a ≤ n := by
  induction n with
  | zero =>
    intro fuel a h
    have ha : a = 0 := by simpa using h
    subst ha
    cases fuel <;> simp [bitLenAux]
  | succ n ih =>
    intro fuel a h
    cases fuel with
    | zero => simp [bitLenAux]
    | succ fuel =>
      unfold bitLenAux
      split
      · exact Nat.zero_le _
      · have : a / 2 < 2 ^ n := by
          rw [Nat.div_lt_iff_lt_mul (by norm_num)]
          rw [pow_succ] at h
          exact h
        exact Nat.succ_le_succ (ih fuel (a / 2) this)

theorem lt_two_pow_bitLenAux : ∀ (fuel a : Nat), a ≤ fuel → a < 2 ^ bitLenAux fuel a := by
  intro fuel
  induction fuel with
  | zero =>
    intro a h
    have ha : a = 0 := by omega
    subst ha
    simp [bitLenAux]
  | succ fuel ih =>
    intro a h
    unfold bitLenAux
    split
    · rename_i h0; subst h0; simp
    · rename_i h0
      have h2 : a / 2 ≤ fuel := by omega
      have := ih (a / 2) h2
      rw [pow_succ]
      omega

theorem two_pow_bitLenAux_pred_le : ∀ (fuel a : Nat), a ≠ 0 → 2 ^ (bitLenAux fuel a - 1) ≤ a := by
  intro fuel
  induction fuel with
  | zero =>
    intro a h
    simp [bitLenAux]; omega
  | succ fuel ih =>
    intro a h
    unfold bitLenAux
    rw [if_neg h, Nat.add_sub_cancel]
    by_cases h2 : a / 2 = 0
    · rw [h2]
      have : bitLenAux fuel 0 = 0 := by cases fuel <;> simp [bitLenAux]
      rw [this]; simp; omega
    · have := ih (a / 2) h2
      by_cases hz : bitLenAux fuel (a / 2) = 0
      · rw [hz]; simp; omega
      · obtain ⟨b, hb⟩ := Nat.exists_eq_succ_of_ne_zero hz
        rw [hb] at this ⊢
        rw [Nat.succ_sub_one] at this
        rw [pow_succ]
        omega

theorem roundNat_zero : roundNat 0 = 0 := by
  simp [roundNat, bitLen, bitLenAux]

theorem roundNat_pos (a : Nat) (h : 0 < a) : 0 < roundNat a := by
  unfold roundNat
  simp only
  split
  · exact h
  · rename_i hs
    have hle := two_pow_bitLenAux_pred_le a a (by omega)
    have hs2 : 2 ^ (bitLen a - 53) ≤ a := by
      refine le_trans (Nat.pow_le_pow_right (by norm_num) ?_) hle
      unfold bitLen; omega
    have hq : 0 < a / 2 ^ (bitLen a - 53) := Nat.div_pos hs2 (by positivity)
    apply Nat.mul_pos
    · split <;> omega
    · positivity

theorem roundNat_le (a : Nat) : roundNat a ≤ 2 ^ bitLen a := by
  have hlt : a < 2 ^ bitLen a := lt_two_pow_bitLenAux a a le_rfl
  unfold roundNat
  simp only
  split
  · exact le_of_lt hlt
  · rename_i hs
    have hL : bitLen a = (bitLen a - 53) + 53 := by omega
    have hq : a / 2 ^ (bitLen a - 53) < 2 ^ 53 := by
      rw [Nat.div_lt_iff_lt_mul (by positivity), ← pow_add, Nat.add_comm, ← hL]
      exact hlt
    have : (if 2 ^ (bitLen a - 53 - 1) < a % 2 ^ (bitLen a - 53) ∨
        a % 2 ^ (bitLen a - 53) = 2 ^ (bitLen a - 53 - 1) ∧ a / 2 ^ (bitLen a - 53) % 2 = 1
        then a / 2 ^ (bitLen a - 53) + 1 else a / 2 ^ (bitLen a - 53)) ≤ 2 ^ 53 := by
      split <;> omega
    calc _ ≤ 2 ^ 53 * 2 ^ (bitLen a - 53) := Nat.mul_le_mul_right _ this
      _ = 2 ^ bitLen a := by rw [← pow_add, Nat.add_comm, ← hL]

theorem roundNat_exact (m e : Nat) (hm : m < 2 ^ 53) : roundNat (m * 2 ^ e) = m * 2 ^ e := by
  have hlen : bitLen (m * 2 ^ e) ≤ 53 + e := by
    apply bitLenAux_le
    rw [pow_add]
    exact Nat.mul_lt_mul_of_pos_right hm (by positivity)
  unfold roundNat
  simp only
  split
  · rfl
  · rename_i hs
    have hse : bitLen (m * 2 ^ e) - 53 ≤ e := by omega
    obtain ⟨d, hd⟩ := Nat.exists_eq_add_of_le hse
    have hdvd : 2 ^ (bitLen (m * 2 ^ e) - 53) ∣ m * 2 ^ e := by
      apply Dvd.dvd.mul_left
      exact pow_dvd_pow 2 hse
    have hr : m * 2 ^ e % 2 ^ (bitLen (m * 2 ^ e) - 53) = 0 := Nat.mod_eq_zero_of_dvd hdvd
    have hh : 0 < 2 ^ (bitLen (m * 2 ^ e) - 53 - 1) := by positivity
    rw [hr, if_neg (by omega)]
    exact Nat.div_mul_cancel hdvd

theorem round_zero : round 0 = finite 0 := by
  simp [round, roundNat_zero]

theorem sub_self_finite (k : Int) : sub (finite k) (finite k) = zero := by
  simp [sub, zero, round_zero]

theorem natAbs_mul_one (n : Int) : (n * (one : Int)).natAbs = n.natAbs * 2 ^ 1074 := by
  rw [Int.natAbs_mul, Int.natAbs_ofNat, one]

theorem ofInt64_finite (n : Int) (h : -2 ^ 63 ≤ n ∧ n < 2 ^ 63) : ∃ k, ofInt64 n = finite k := by
  have habs : n.natAbs ≤ 2 ^ 63 := by omega
  have ha : n.natAbs * 2 ^ 1074 < 2 ^ 1138 := by
    calc n.natAbs * 2 ^ 1074 ≤ 2 ^ 63 * 2 ^ 1074 := Nat.mul_le_mul_right _ habs
      _ < 2 ^ 1138 := by rw [← pow_add]; exact Nat.pow_lt_pow_right (by norm_num) (by norm_num)
  have hlen : bitLen (n.natAbs * 2 ^ 1074) ≤ 1138 := bitLenAux_le _ _ _ ha
  have hr : roundNat (n.natAbs * 2 ^ 1074) < 2 ^ 2098 :=
    calc roundNat (n.natAbs * 2 ^ 1074) ≤ 2 ^ bitLen (n.natAbs * 2 ^ 1074) := roundNat_le _
      _ ≤ 2 ^ 1138 := Nat.pow_le_pow_right (by norm_num) hlen
      _ < 2 ^ 2098 := Nat.pow_lt_pow_right (by norm_num) (by norm_num)
  unfold ofInt64 round
  simp only [natAbs_mul_one]
  rw [if_neg (by omega)]
  exact ⟨_, rfl⟩

theorem ofInt64_exact (n : Int) (h : n.natAbs < 2 ^ 53) : ofInt64 n = finite (n * (one : Int)) := by
  have hex := roundNat_exact n.natAbs 1074 h
  have ha : n.natAbs * 2 ^ 1074 < 2 ^ 2098 := by
    calc n.natAbs * 2 ^ 1074 < 2 ^ 53 * 2 ^ 1074 :=
          Nat.mul_lt_mul_of_pos_right h (by positivity)
      _ ≤ 2 ^ 2098 := by rw [← pow_add]; exact Nat.pow_le_pow_right (by norm_num) (by norm_num)
  unfold ofInt64 round
  simp only [natAbs_mul_one, hex]
  rw [if_neg (by omega)]
  congr 1
  have hcast : ((n.natAbs * 2 ^ 1074 : Nat) : Int) = (n.natAbs : Int) * (one : Int) := by
    simp [one]
  have hone : (0 : Int) < (one : Int) := by simp [one]
  rw [hcast]
  split
  · rename_i hneg
    have hn : n < 0 := by
      by_contra hge
      have : 0 ≤ n * (one : Int) := Int.mul_nonneg (by omega) (le_of_lt hone)
      omega
    rw [← Int.neg_mul, Int.ofNat_natAbs_of_nonpos (le_of_lt hn), Int.neg_neg]
  · rename_i hneg
    have hn : 0 ≤ n := by
      by_contra hlt
      have : n * (one : Int) < 0 := Int.mul_neg_of_neg_of_pos (by omega) hone
      omega
    rw [Int.natAbs_of_nonneg hn]

theorem sub_ofInt64 (a b : Int) (ha : a.natAbs < 2 ^ 53) (hb : b.natAbs < 2 ^ 53)
 : sub (ofInt64 a) (ofInt64 b) = ofInt64 (a - b) := by
  rw [ofInt64_exact a ha, ofInt64_exact b hb]
  show round (a * (one : Int) - b * (one : Int)) = ofInt64 (a - b)
  rw [← Int.sub_mul]
  rfl

theorem isNegative_round (k : Int) (h : k < 0) : isNegative (round k) = true := by
  have hpos : 0 < roundNat k.natAbs := roundNat_pos _ (by omega)
  unfold round
  simp only
  split
  · simp [isNegative, h]
  · simp only [isNegative, h, if_true, decide_eq_true_eq]
    omega

theorem isNegative_sub (a b : Int) (h : a < b) : isNegative (sub (finite a) (finite b)) = true :=
  isNegative_round (a - b) (by omega)

end Float64

/-! ## Lemmas on the latency loop body and on `FetchMetrics` -/

theorem addNamespace_append (ns a b : String) :
    addNamespace ns a ++ b = addNamespace ns (a ++ b) := by
  unfold addNamespace
  split
  · rfl
  · rw [String.append_assoc]

namespace SidekiqPlugin

theorem queueLatencyStep_empty (sp : SidekiqPlugin) (rt : Runtime) (pfx q : String) (i : Nat)
    (h : sp.Client.oldestEntry (pfx ++ q) = none) :
    queueLatencyStep sp rt pfx i q = Except.ok (some (Value.float64 Float64.zero)) := by
  unfold Client.oldestEntry at h
  unfold queueLatencyStep
  cases hl : (sp.Client.LRange (pfx ++ q) (-1) (-1)).1 with
  | nil => simp [hl]; rfl
  | cons a l => rw [hl] at h; simp at h

theorem queueLatencyStep_undecodable (sp : SidekiqPlugin) (rt : Runtime) (pfx q : String)
    (i : Nat) (entry : String) (h : sp.Client.oldestEntry (pfx ++ q) = some entry)
    (hd : rt.Unmarshal entry = none) :
    queueLatencyStep sp rt pfx i q = Except.ok none := by
  unfold Client.oldestEntry at h
  unfold queueLatencyStep
  cases hl : (sp.Client.LRange (pfx ++ q) (-1) (-1)).1 with
  | nil => rw [hl] at h; simp at h
  | cons a l =>
    rw [hl] at h
    simp only [List.head?_cons, Option.some.injEq] at h
    subst h
    simp [hl, hd]; rfl

theorem queueLatencyStep_number (sp : SidekiqPlugin) (rt : Runtime) (pfx q : String)
    (i : Nat) (entry : String) (job : List (String × JVal)) (t : Float64)
    (h : sp.Client.oldestEntry (pfx ++ q) = some entry)
    (hd : rt.Unmarshal entry = some job)
    (ht : job.lookup "enqueued_at" = some (JVal.number t)) :
    queueLatencyStep sp rt pfx i q =
      Except.ok (some (Value.float64 (Float64.sub (Float64.ofInt64 (rt.Unix i)) t))) := by
  unfold Client.oldestEntry at h
  unfold queueLatencyStep
  cases hl : (sp.Client.LRange (pfx ++ q) (-1) (-1)).1 with
  | nil => rw [hl] at h; simp at h
  | cons a l =>
    rw [hl] at h
    simp only [List.head?_cons, Option.some.injEq] at h
    subst h
    simp [hl, hd, ht]; rfl

theorem queueLatencyStep_absent (sp : SidekiqPlugin) (rt : Runtime) (pfx q : String)
    (i : Nat) (entry : String) (job : List (String × JVal))
    (h : sp.Client.oldestEntry (pfx ++ q) = some entry)
    (hd : rt.Unmarshal entry = some job)
    (ht : job.lookup "enqueued_at" = none) :
    queueLatencyStep sp rt pfx i q = Except.ok (some (Value.float64 Float64.zero)) := by
  obtain ⟨k, hk⟩ := Float64.ofInt64_finite (rt.Unix i) (rt.Unix_int64 i)
  unfold Client.oldestEntry at h
  unfold queueLatencyStep
  cases hl : (sp.Client.LRange (pfx ++ q) (-1) (-1)).1 with
  | nil => rw [hl] at h; simp at h
  | cons a l =>
    rw [hl] at h
    simp only [List.head?_cons, Option.some.injEq] at h
    subst h
    simp [hl, hd, ht, hk, Float64.sub_self_finite]; rfl

theorem queueLatencyStep_mistyped (sp : SidekiqPlugin) (rt : Runtime) (pfx q : String)
    (i : Nat) (entry : String) (job : List (String × JVal)) (v : JVal)
    (h : sp.Client.oldestEntry (pfx ++ q) = some entry)
    (hd : rt.Unmarshal entry = some job)
    (ht : job.lookup "enqueued_at" = some v) (hv : ∀ t, v ≠ JVal.number t) :
    queueLatencyStep sp rt pfx i q = Except.error GoPanic.typeAssertion := by
  unfold Client.oldestEntry at h
  unfold queueLatencyStep
  cases hl : (sp.Client.LRange (pfx ++ q) (-1) (-1)).1 with
  | nil => rw [hl] at h; simp at h
  | cons a l =>
    rw [hl] at h
    simp only [List.head?_cons, Option.some.injEq] at h
    subst h
    cases v with
    | number t => exact absurd rfl (hv t)
    | _ => simp [hl, hd, ht]; rfl

/-- The loop body returns when the `enqueued_at` of the entry, if any, is a number. -/
theorem queueLatencyStep_ok (sp : SidekiqPlugin) (rt : Runtime) (pfx q : String) (i : Nat)
    (h : ∀ entry job v, sp.Client.oldestEntry (pfx ++ q) = some entry →
      rt.Unmarshal entry = some job → job.lookup "enqueued_at" = some v → ∃ t, v = JVal.number t) :
    ∃ r, queueLatencyStep sp rt pfx i q = Except.ok r := by
  cases he : sp.Client.oldestEntry (pfx ++ q) with
  | none => exact ⟨_, queueLatencyStep_empty sp rt pfx q i he⟩
  | some entry =>
    cases hd : rt.Unmarshal entry with
    | none => exact ⟨_, queueLatencyStep_undecodable sp rt pfx q i entry he hd⟩
    | some job =>
      cases ht : job.lookup "enqueued_at" with
      | none => exact ⟨_, queueLatencyStep_absent sp rt pfx q i entry job he hd ht⟩
      | some v =>
        obtain ⟨t, rfl⟩ := h entry job v he hd ht
        exact ⟨_, queueLatencyStep_number sp rt pfx q i entry job t he hd ht⟩

theorem queueKey_eq (sp : SidekiqPlugin) (q : String) :
    addNamespace sp.Namespace "queue:" ++ q = sp.queueKey q :=
  addNamespace_append _ _ _

theorem getQueueLatency_ok (sp : SidekiqPlugin) (rt : Runtime) (h : sp.EnqueuedAtTyped rt) :
    ∃ latency, sp.getQueueLatency rt = Except.ok latency := by
  unfold getQueueLatency
  apply queueLatencyLoop_ok
  intro j q hj
  apply queueLatencyStep_ok
  intro entry job v he hd ht
  rw [queueKey_eq] at he
  exact h q (List.getElem?_mem hj) entry job v he hd ht

theorem getQueueLatency_wf (sp : SidekiqPlugin) (rt : Runtime) (latency : Metrics)
    (h : sp.getQueueLatency rt = Except.ok latency) : latency.WF :=
  queueLatencyLoop_wf sp rt _ _ _ _ _ Metrics.wf_empty h

theorem getQueueLatency_names (sp : SidekiqPlugin) (rt : Runtime) (latency : Metrics)
    (h : sp.getQueueLatency rt = Except.ok latency) (k : String) (hk : k ∈ latency.names) :
    ∃ q ∈ sp.queues, k = metricName ["QueueLatency", q] := by
  rcases queueLatencyLoop_names sp rt _ k _ _ _ _ h hk with h1 | h1
  · simp [Metrics.empty, Metrics.names] at h1
  · exact h1

theorem mergeMaps_value? (ms : List Metrics) (h : ∀ c ∈ ms, Metrics.WF c) (k : String) :
    (mergeMaps ms).value? k = ms.reverse.findSome? (fun c => Metrics.value? c k) := by
  unfold mergeMaps
  have aux : ∀ (ms : List Metrics) (r : Metrics), (∀ c ∈ ms, Metrics.WF c) →
      Metrics.value? (ms.foldl (fun r c => c.foldl (fun r kv => Metrics.assign r kv.1 kv.2) r) r) k
        = (ms.reverse.findSome? (fun c => Metrics.value? c k)).or (r.value? k) := by
    intro ms
    induction ms with
    | nil => intro r _; simp
    | cons c ms ih =>
      intro r hwf
      rw [List.foldl_cons, ih _ (fun c hc => hwf c (List.mem_cons_of_mem _ hc)),
        Metrics.value?_foldl_assign, Metrics.value?_reverse c (hwf c (List.mem_cons_self _ _)),
        List.reverse_cons, List.findSome?_append]
      cases List.findSome? (fun c => Metrics.value? c k) ms.reverse with
      | some v => simp
      | none =>
        simp only [Option.none_or, List.findSome?_cons, List.findSome?_nil]
        cases c.value? k <;> simp
  rw [aux ms Metrics.empty h]
  simp [Metrics.value?_empty]

theorem FetchMetrics_of_latency (sp : SidekiqPlugin) (rt : Runtime) (latency : Metrics)
    (h : sp.getQueueLatency rt = Except.ok latency) :
    sp.FetchMetrics rt =
      Except.ok (mergeMaps [sp.getStats statsField, sp.getProcessedFailed, latency], none) := by
  unfold FetchMetrics
  rw [h]
  rfl

theorem FetchMetrics_inv (sp : SidekiqPlugin) (rt : Runtime) (m : Metrics) (e : Err)
    (h : sp.FetchMetrics rt = Except.ok (m, e)) :
    e = none ∧ ∃ latency, sp.getQueueLatency rt = Except.ok latency ∧
      m = mergeMaps [sp.getStats statsField, sp.getProcessedFailed, latency] := by
  cases hl : sp.getQueueLatency rt with
  | error p =>
    unfold FetchMetrics at h
    rw [hl] at h
    simp [bind, Except.bind] at h
  | ok latency =>
    rw [FetchMetrics_of_latency sp rt latency hl] at h
    simp only [Except.ok.injEq, Prod.mk.injEq] at h
    exact ⟨h.2.symm, latency, rfl, h.1.symm⟩

theorem FetchMetrics_panic (sp : SidekiqPlugin) (rt : Runtime) (p : GoPanic)
    (h : sp.getQueueLatency rt = Except.error p) : sp.FetchMetrics rt = Except.error p := by
  unfold FetchMetrics
  rw [h]
  rfl

/-- The merged mapping: the latency entries, then `processed`/`failed`, then the stats. -/
theorem merged_value? (sp : SidekiqPlugin) (rt : Runtime) (latency : Metrics)
    (h : sp.getQueueLatency rt = Except.ok latency) (k : String) :
    (mergeMaps [sp.getStats statsField, sp.getProcessedFailed, latency]).value? k =
      (latency.value? k).or ((sp.getProcessedFailed.value? k).or
        ((sp.getStats statsField).value? k)) := by
  rw [mergeMaps_value?]
  · simp [List.findSome?_cons]
    cases latency.value? k with
    | some v => simp
    | none =>
      cases sp.getProcessedFailed.value? k with
      | some v => simp
      | none => cases (sp.getStats statsField).value? k <;> simp
  · intro c hc
    simp only [List.mem_cons, List.mem_singleton, List.not_mem_nil, or_false] at hc
    rcases hc with rfl | rfl | rfl
    · exact getStats_wf _ _
    · exact getProcessedFailed_wf _
    · exact getQueueLatency_wf sp rt _ h

end SidekiqPlugin

/-! ## The sums of `getBusy` and `getEnqueued` -/

theorem inject_eq (l : List Nat) (b : Nat) (hb : b < uint64Size) :
    inject l b = (b + l.sum) % uint64Size := by
  unfold inject
  induction l generalizing b with
  | nil => simp [Nat.mod_eq_of_lt hb]
  | cons e l ih =>
    have hpos : 0 < uint64Size := by unfold uint64Size; positivity
    rw [List.foldl_cons, ih _ (Nat.mod_lt _ hpos), List.sum_cons, Nat.add_mod,
      Nat.mod_mod, ← Nat.add_mod, Nat.add_assoc]

theorem foldl_append_singleton {α : Type} (f : String → α) (l : List String) (init : List α) :
    l.foldl (fun acc e => acc ++ [f e]) init = init ++ l.map f := by
  induction l generalizing init with
  | nil => simp
  | cons e l ih => rw [List.foldl_cons, ih]; simp

theorem sum_replicate_zero (n : Nat) : (List.replicate n 0).sum = 0 := by
  simp

namespace SidekiqPlugin

theorem sMembers_eq_members (sp : SidekiqPlugin) (h : sp.Client.ReadsSucceed) (key : String) :
    sp.sMembers key = sp.Client.members key := by
  have := h.SMembers key
  unfold sMembers Client.members
  rcases hr : sp.Client.SMembers key with ⟨val, err⟩
  rw [hr] at this
  rcases this with h1 | h1 <;> simp only at h1 <;> subst h1 <;> simp

theorem hGet_eq_busyCount (sp : SidekiqPlugin) (h : sp.Client.ReadsSucceed) (key f : String) :
    sp.hGet key f = busyCount (sp.Client.hashField key f) := by
  have := h.HGet key f
  unfold hGet Client.hashField
  rcases hr : sp.Client.HGet key f with ⟨val, err⟩
  rw [hr] at this
  rcases this with h1 | h1 <;> simp only at h1 <;> subst h1 <;> simp [busyCount]

theorem lLen_eq_listLength (sp : SidekiqPlugin) (h : sp.Client.ReadsSucceed) (key : String) :
    sp.lLen key = sp.Client.listLength key := by
  have := h.LLen key
  unfold lLen Client.listLength
  rcases hr : sp.Client.LLen key with ⟨val, err⟩
  rw [hr] at this
  rcases this with h1 | h1 <;> simp only at h1 <;> subst h1 <;> simp

theorem getBusy_eq (sp : SidekiqPlugin) :
    sp.getBusy = ((sp.sMembers (addNamespace sp.Namespace "processes")).map
      (fun p => sp.hGet (addNamespace sp.Namespace p) "busy")).sum % uint64Size := by
  unfold getBusy
  simp only
  rw [foldl_append_singleton (fun e => sp.hGet (addNamespace sp.Namespace e) "busy"),
    inject_eq _ _ (by unfold uint64Size; positivity), List.sum_append, sum_replicate_zero]
  simp

theorem getEnqueued_eq (sp : SidekiqPlugin) :
    sp.getEnqueued = ((sp.sMembers (addNamespace sp.Namespace "queues")).map
      (fun q => sp.lLen (addNamespace sp.Namespace "queue:" ++ q))).sum % uint64Size := by
  unfold getEnqueued
  simp only
  rw [foldl_append_singleton (fun e => sp.lLen (addNamespace sp.Namespace "queue:" ++ e)),
    inject_eq _ _ (by unfold uint64Size; positivity), List.sum_append, sum_replicate_zero]
  simp

end SidekiqPlugin

theorem sampleClient_readsSucceed : sampleClient.ReadsSucceed where
  Get := fun k => by unfold sampleClient NoFailure; simp only; split <;> simp
  ZCard := fun k => by unfold sampleClient NoFailure; simp only; split <;> simp
  SMembers := fun k => by unfold sampleClient NoFailure; simp only; split_ifs <;> simp
  HGet := fun k f => by unfold sampleClient NoFailure; simp only; split_ifs <;> simp
  LLen := fun k => by unfold sampleClient NoFailure; simp only; split_ifs <;> simp
  LRange := fun k a b => by unfold sampleClient NoFailure; simp only; split_ifs <;> simp

/-! ## The keys `getQueueLatency` reads -/

namespace SidekiqPlugin

theorem queueLatencyStep_congr (sp sp' : SidekiqPlugin) (rt : Runtime) (pfx q : String) (i : Nat)
    (h : sp'.Client.LRange (pfx ++ q) (-1) (-1) = sp.Client.LRange (pfx ++ q) (-1) (-1)) :
    queueLatencyStep sp' rt pfx i q = queueLatencyStep sp rt pfx i q := by
  unfold queueLatencyStep
  rw [h]

theorem queueLatencyLoop_congr (sp sp' : SidekiqPlugin) (rt : Runtime) (pfx : String)
    (qs : List String) (i : Nat) (acc : Metrics)
    (h : ∀ q ∈ qs, sp'.Client.LRange (pfx ++ q) (-1) (-1) = sp.Client.LRange (pfx ++ q) (-1) (-1)) :
    queueLatencyLoop sp' rt pfx qs i acc = queueLatencyLoop sp rt pfx qs i acc := by
  induction qs generalizing i acc with
  | nil => rfl
  | cons q qs ih =>
    unfold queueLatencyLoop
    rw [queueLatencyStep_congr sp sp' rt pfx q i (h q (List.mem_cons_self _ _))]
    have hrest := fun x hx => h x (List.mem_cons_of_mem q hx)
    split
    · rfl
    · exact ih _ _ hrest
    · exact ih _ _ hrest

theorem getQueueLatency_congr (sp sp' : SidekiqPlugin) (rt : Runtime)
    (hns : sp'.Namespace = sp.Namespace) (hq : sp'.queues = sp.queues)
    (h : ∀ q ∈ sp.queues, sp'.Client.LRange (sp.queueKey q) (-1) (-1)
      = sp.Client.LRange (sp.queueKey q) (-1) (-1)) :
    sp'.getQueueLatency rt = sp.getQueueLatency rt := by
  unfold getQueueLatency
  unfold queues at hq
  simp only
  rw [hq, hns]
  apply queueLatencyLoop_congr
  intro q hq'
  rw [queueKey_eq]
  exact h q hq'

end SidekiqPlugin

/-! ## The two key layouts -/

theorem queueChain_data_succ (k : Nat) :
    (queueChain (k + 1)).data = "queue:".data ++ (queueChain k).data := by
  show ("queue:" ++ queueChain k).data = _
  rw [String.data_append]

theorem queueChain_commutes (k : Nat) :
    (queueChain k).data ++ [':'] ++ "queue:".data = "queue:".data ++ ((queueChain k).data ++ [':']) := by
  induction k with
  | zero => decide
  | succ k ih =>
    rw [queueChain_data_succ, List.append_assoc, List.append_assoc, List.append_assoc]
    rw [List.append_assoc] at ih
    rw [ih]

theorem eq_queueChain_of_commutes : ∀ (len : Nat) (n : List Char), n.length ≤ len →
    n ++ [':'] ++ "queue:".data = "queue:".data ++ (n ++ [':']) →
    ∃ k, n = (queueChain k).data := by
  intro len
  induction len with
  | zero =>
    intro n hlen h
    have : n = [] := List.length_eq_zero.mp (by omega)
    subst this
    simp at h
  | succ len ih =>
    intro n hlen h
    rcases n with _ | ⟨a, _ | ⟨b, _ | ⟨c, _ | ⟨d, _ | ⟨e, _ | ⟨f, rest⟩⟩⟩⟩⟩⟩
    · simp at h
    · simp at h
    · simp at h
    · simp at h
    · simp at h
    · simp at h
      obtain ⟨rfl, rfl, rfl, rfl, rfl, _⟩ := h
      exact ⟨0, rfl⟩
    · simp at h
      obtain ⟨rfl, rfl, rfl, rfl, rfl, rfl, h⟩ := h
      have hlen' : rest.length ≤ len := by simp at hlen; omega
      obtain ⟨k, hk⟩ := ih rest hlen' (by simpa using h)
      exact ⟨k + 1, by rw [queueChain_data_succ, hk]; rfl⟩

/-- The namespace-first key is the string of the other layout exactly for the namespaces
`queue`, `queue:queue`, …. -/
theorem queueKey_eq_swapped_iff (ns q : String) :
    addNamespace ns ("queue:" ++ q) = "queue:" ++ ns ++ ":" ++ q ↔ ∃ k, ns = queueChain k := by
  unfold addNamespace
  split
  · rename_i h0
    subst h0
    constructor
    · intro h
      have hd := congrArg String.data h
      simp only [String.data_append] at hd
      have hl := congrArg List.length hd
      simp at hl
    · rintro ⟨k, hk⟩
      have hl := congrArg String.length hk
      cases k with
      | zero => exact absurd hl (by decide)
      | succ k =>
        have h6 : "queue:".length = 6 := by decide
        have h0 : "".length = 0 := by decide
        rw [queueChain, String.length_append, h6, h0] at hl
        omega
  · constructor
    · intro h
      have hd := congrArg String.data h
      simp only [String.data_append] at hd
      have hq : (ns.data ++ [':'] ++ "queue:".data) ++ q.data
          = ("queue:".data ++ (ns.data ++ [':'])) ++ q.data := by
        simpa [List.append_assoc] using hd
      have hcomm : ns.data ++ [':'] ++ "queue:".data = "queue:".data ++ (ns.data ++ [':']) :=
        List.append_cancel_right hq
      obtain ⟨k, hk⟩ := eq_queueChain_of_commutes _ ns.data le_rfl hcomm
      exact ⟨k, String.ext hk⟩
    · rintro ⟨k, rfl⟩
      apply String.ext
      simp only [String.data_append]
      have hc := queueChain_commutes k
      have : (queueChain k).data ++ [':'] ++ "queue:".data ++ q.data
          = "queue:".data ++ ((queueChain k).data ++ [':']) ++ q.data := by rw [hc]
      simpa [List.append_assoc] using this

/-! ## The values of the merged mapping -/

namespace SidekiqPlugin

theorem latency_value?_of_not_queue (sp : SidekiqPlugin) (rt : Runtime) (latency : Metrics)
    (h : sp.getQueueLatency rt = Except.ok latency) (k : String)
    (hk : ∀ q ∈ sp.queues, k ≠ metricName ["QueueLatency", q]) : latency.value? k = none := by
  rw [← Metrics.not_mem_names_iff]
  intro hmem
  obtain ⟨q, hq, rfl⟩ := getQueueLatency_names sp rt latency h k hmem
  exact hk q hq rfl

theorem latency_value?_fixed (sp : SidekiqPlugin) (rt : Runtime) (latency : Metrics)
    (h : sp.getQueueLatency rt = Except.ok latency) (k : String) (hk : k ∈ fixedNames) :
    latency.value? k = none := by
  apply latency_value?_of_not_queue sp rt latency h
  intro q _ hkq
  exact metricName_queueLatency_not_fixed q (hkq ▸ hk)

/-- The value of a fixed metric in the merged mapping. -/
theorem merged_value?_fixed (sp : SidekiqPlugin) (rt : Runtime) (latency : Metrics)
    (h : sp.getQueueLatency rt = Except.ok latency) (k : String) (hk : k ∈ fixedNames) :
    (mergeMaps [sp.getStats statsField, sp.getProcessedFailed, latency]).value? k =
      (sp.getProcessedFailed.value? k).or ((sp.getStats statsField).value? k) := by
  rw [merged_value? sp rt latency h, latency_value?_fixed sp rt latency h k hk]
  rfl

theorem merged_fixed_isSome (sp : SidekiqPlugin) (rt : Runtime) (latency : Metrics)
    (h : sp.getQueueLatency rt = Except.ok latency) (k : String) (hk : k ∈ fixedNames) :
    ((mergeMaps [sp.getStats statsField, sp.getProcessedFailed, latency]).value? k).isSome
      = true := by
  rw [merged_value?_fixed sp rt latency h k hk, getProcessedFailed_value?, getStats_value?]
  simp only [fixedNames, List.mem_cons, List.mem_singleton, List.not_mem_nil, or_false] at hk
  rcases hk with rfl | rfl | rfl | rfl | rfl | rfl | rfl <;> simp

/-- The value of a latency entry in the merged mapping. -/
theorem merged_value?_queueLatency (sp : SidekiqPlugin) (rt : Runtime) (latency : Metrics)
    (h : sp.getQueueLatency rt = Except.ok latency) (q : String) :
    (mergeMaps [sp.getStats statsField, sp.getProcessedFailed, latency]).value?
      (metricName ["QueueLatency", q]) = latency.value? (metricName ["QueueLatency", q]) := by
  have hnf := metricName_queueLatency_not_fixed q
  simp only [fixedNames, List.mem_cons, List.mem_singleton, List.not_mem_nil, or_false,
    not_or] at hnf
  rw [merged_value? sp rt latency h, getProcessedFailed_value?, getStats_value?]
  simp [hnf]

theorem FetchMetrics_ok (sp : SidekiqPlugin) (rt : Runtime) (h : sp.EnqueuedAtTyped rt) :
    ∃ m, sp.FetchMetrics rt = Except.ok (m, none) := by
  obtain ⟨latency, hl⟩ := getQueueLatency_ok sp rt h
  exact ⟨_, FetchMetrics_of_latency sp rt latency hl⟩

/-- The latency entry of the queue at position `i` of a QueueSet without repetition. -/
theorem latency_value?_at (sp : SidekiqPlugin) (rt : Runtime) (latency : Metrics)
    (h : sp.getQueueLatency rt = Except.ok latency) (hnd : sp.queues.Nodup) (i : Nat)
    (q : String) (hq : sp.queues[i]? = some q) :
    ∃ r, queueLatencyStep sp rt (addNamespace sp.Namespace "queue:") i q = Except.ok r ∧
      latency.value? (metricName ["QueueLatency", q]) = r := by
  unfold getQueueLatency at h
  obtain ⟨r, hr, hv⟩ := queueLatencyLoop_value?_nodup sp rt _ q _ 0 i _ _ hnd hq h
  rw [Nat.zero_add] at hr
  refine ⟨r, hr, ?_⟩
  rw [hv]
  cases r <;> rfl

end SidekiqPlugin

theorem samplePlugin_typed : samplePlugin.EnqueuedAtTyped sampleRuntime := by
  intro q hq entry job v he hd hl
  have hqs : samplePlugin.queues = ["default", "low", "broken"] := rfl
  rw [hqs] at hq
  simp only [List.mem_cons, List.mem_singleton, List.not_mem_nil, or_false] at hq
  rcases hq with rfl | rfl | rfl
  · have h1 : samplePlugin.Client.oldestEntry (samplePlugin.queueKey "default")
        = some "\x7b\"enqueued_at\":1700000000\x7d" := by decide
    rw [h1] at he
    cases he
    have h2 : sampleRuntime.Unmarshal "\x7b\"enqueued_at\":1700000000\x7d"
        = some [("enqueued_at", JVal.number (Float64.ofInt64 1700000000))] := rfl
    rw [h2] at hd
    cases hd
    simp only [List.lookup_cons_self, Option.some.injEq] at hl
    exact ⟨_, hl.symm⟩
  · have h1 : samplePlugin.Client.oldestEntry (samplePlugin.queueKey "low") = none := by decide
    rw [h1] at he
    cases he
  · have h1 : samplePlugin.Client.oldestEntry (samplePlugin.queueKey "broken")
        = some "not json" := by decide
    rw [h1] at he
    cases he
    have h2 : sampleRuntime.Unmarshal "not json" = none := rfl
    rw [h2] at hd
    cases hd

/-! ## Absent keys -/

namespace SidekiqPlugin

theorem sMembers_of_empty (sp : SidekiqPlugin) (key : String)
    (h : sp.Client.SMembers key = ([], none) ∨ (sp.Client.SMembers key).2 = some RedisError.Nil) :
    sp.sMembers key = [] := by
  unfold sMembers
  rcases hr : sp.Client.SMembers key with ⟨val, err⟩
  rw [hr] at h
  rcases h with h | h
  · cases h; simp
  · simp only at h; subst h; simp

theorem get_of_absent (sp : SidekiqPlugin) (key : String)
    (h : (sp.Client.Get key).2 = some RedisError.Nil) : sp.get key = 0 := by
  unfold get
  rcases hr : sp.Client.Get key with ⟨val, err⟩
  rw [hr] at h
  simp only at h; subst h; simp

theorem zCard_of_absent (sp : SidekiqPlugin) (key : String)
    (h : sp.Client.ZCard key = (0, none) ∨ (sp.Client.ZCard key).2 = some RedisError.Nil) :
    sp.zCard key = 0 := by
  unfold zCard
  rcases hr : sp.Client.ZCard key with ⟨val, err⟩
  rw [hr] at h
  rcases h with h | h
  · cases h; simp [uint64OfInt64]
  · simp only at h; subst h; simp

end SidekiqPlugin

theorem emptyPlugin_emptySystem : emptyPlugin.EmptySystem where
  processes := Or.inl rfl
  queues := Or.inl rfl
  processed := rfl
  failed := rfl
  schedule := Or.inl rfl
  retry := Or.inl rfl
  dead := Or.inl rfl

/-! ## The key sets of the sub-results -/

theorem findSome?_eq_some_of_agree {α β : Type} (f : α → Option β) (v : β) (l : List α)
    (hex : ∃ c ∈ l, f c = some v) (hall : ∀ c ∈ l, ∀ w, f c = some w → w = v) :
    l.findSome? f = some v := by
  induction l with
  | nil => obtain ⟨c, hc, _⟩ := hex; simp at hc
  | cons a l ih =>
    rw [List.findSome?_cons]
    cases hfa : f a with
    | some w =>
      simp only
      rw [hall a (List.mem_cons_self _ _) w hfa]
    | none =>
      simp only
      apply ih
      · obtain ⟨c, hc, hv⟩ := hex
        rcases List.mem_cons.mp hc with rfl | hc'
        · rw [hfa] at hv; cases hv
        · exact ⟨c, hc', hv⟩
      · exact fun c hc => hall c (List.mem_cons_of_mem _ hc)

namespace SidekiqPlugin

theorem getStats_names (sp : SidekiqPlugin) (k : String)
    (h : k ∈ (sp.getStats statsField).names) :
    k ∈ ["busy", "enqueued", "schedule", "retry", "dead"] := by
  rw [Metrics.mem_names_iff, getStats_value?] at h
  simp only [List.mem_cons, List.mem_singleton, List.not_mem_nil, or_false]
  by_contra hk
  simp only [not_or] at hk
  simp [hk] at h

theorem getProcessedFailed_names (sp : SidekiqPlugin) (k : String)
    (h : k ∈ sp.getProcessedFailed.names) : k ∈ ["processed", "failed"] := by
  rw [Metrics.mem_names_iff, getProcessedFailed_value?] at h
  simp only [List.mem_cons, List.mem_singleton, List.not_mem_nil, or_false]
  by_contra hk
  simp only [not_or] at hk
  simp [hk] at h

theorem names_disjoint (sp : SidekiqPlugin) (rt : Runtime) (latency : Metrics)
    (h : sp.getQueueLatency rt = Except.ok latency) (k : String) :
    ¬ (k ∈ (sp.getStats statsField).names ∧ k ∈ sp.getProcessedFailed.names)
      ∧ ¬ (k ∈ (sp.getStats statsField).names ∧ k ∈ latency.names)
      ∧ ¬ (k ∈ sp.getProcessedFailed.names ∧ k ∈ latency.names) := by
  refine ⟨?_, ?_, ?_⟩
  · rintro ⟨h1, h2⟩
    have a := getStats_names sp k h1
    have b := getProcessedFailed_names sp k h2
    simp only [List.mem_cons, List.mem_singleton, List.not_mem_nil, or_false] at a b
    rcases a with rfl | rfl | rfl | rfl | rfl <;> simp at b
  · rintro ⟨h1, h2⟩
    have a := getStats_names sp k h1
    obtain ⟨q, _, rfl⟩ := getQueueLatency_names sp rt latency h k h2
    apply metricName_queueLatency_not_fixed q
    simp only [fixedNames, List.mem_cons, List.mem_singleton, List.not_mem_nil, or_false] at a ⊢
    tauto
  · rintro ⟨h1, h2⟩
    have a := getProcessedFailed_names sp k h1
    obtain ⟨q, _, rfl⟩ := getQueueLatency_names sp rt latency h k h2
    apply metricName_queueLatency_not_fixed q
    simp only [fixedNames, List.mem_cons, List.mem_singleton, List.not_mem_nil, or_false] at a ⊢
    tauto

end SidekiqPlugin

theorem mistypedClient_readsSucceed : mistypedClient.ReadsSucceed where
  Get := fun k => by unfold mistypedClient NoFailure; simp
  ZCard := fun k => by unfold mistypedClient NoFailure; simp
  SMembers := fun k => by unfold mistypedClient NoFailure; simp only; split_ifs <;> simp
  HGet := fun k f => by unfold mistypedClient NoFailure; simp
  LLen := fun k => by unfold mistypedClient NoFailure; simp only; split_ifs <;> simp
  LRange := fun k a b => by unfold mistypedClient NoFailure; simp only; split_ifs <;> simp

/-! ## Stores that differ in one list -/

namespace SidekiqPlugin

/-- A queue whose iteration never stores anything leaves its latency name untouched. -/
theorem queueLatencyLoop_value?_skip (sp : SidekiqPlugin) (rt : Runtime) (pfx q : String)
    (hstep : ∀ i, queueLatencyStep sp rt pfx i q = Except.ok none)
    (qs : List String) (i : Nat) (acc m : Metrics)
    (h : queueLatencyLoop sp rt pfx qs i acc = Except.ok m) :
    m.value? (metricName ["QueueLatency", q]) = acc.value? (metricName ["QueueLatency", q]) := by
  induction qs generalizing i acc with
  | nil =>
    simp only [queueLatencyLoop, pure, Except.pure, Except.ok.injEq] at h
    rw [h]
  | cons x qs ih =>
    unfold queueLatencyLoop at h
    split at h
    · simp [throw, throwThe, MonadExceptOf.throw, Except.bind] at h
    · exact ih _ _ h
    · rename_i v heq
      have hne : metricName ["QueueLatency", q] ≠ metricName ["QueueLatency", x] := by
        intro hxe
        have := metricName_queueLatency_injective _ _ hxe
        subst this
        rw [hstep i] at heq
        simp at heq
      rw [ih _ _ h, Metrics.value?_assign_ne _ _ hne]

/-- Two stores whose loop bodies agree on every queue but `q` produce latency mappings
that agree on every name but the latency name of `q`. -/
theorem queueLatencyLoop_agree (sp sp' : SidekiqPlugin) (rt : Runtime) (pfx q k : String)
    (hk : k ≠ metricName ["QueueLatency", q])
    (hstep : ∀ x, x ≠ q → ∀ i,
      queueLatencyStep sp' rt pfx i x = queueLatencyStep sp rt pfx i x)
    (qs : List String) (i : Nat) (acc acc' m m' : Metrics)
    (hacc : acc'.value? k = acc.value? k)
    (h' : queueLatencyLoop sp' rt pfx qs i acc' = Except.ok m')
    (h : queueLatencyLoop sp rt pfx qs i acc = Except.ok m) :
    m'.value? k = m.value? k := by
  induction qs generalizing i acc acc' with
  | nil =>
    simp only [queueLatencyLoop, pure, Except.pure, Except.ok.injEq] at h h'
    rw [← h, ← h', hacc]
  | cons x qs ih =>
    unfold queueLatencyLoop at h h'
    by_cases hx : x = q
    · subst hx
      split at h
      · simp [throw, throwThe, MonadExceptOf.throw, Except.bind] at h
      · split at h'
        · simp [throw, throwThe, MonadExceptOf.throw, Except.bind] at h'
        · exact ih _ _ _ hacc h' h
        · exact ih _ _ _ (by rw [Metrics.value?_assign_ne _ _ hk, hacc]) h' h
      · split at h'
        · simp [throw, throwThe, MonadExceptOf.throw, Except.bind] at h'
        · exact ih _ _ _ (by rw [Metrics.value?_assign_ne _ _ hk, hacc]) h' h
        · exact ih _ _ _
            (by rw [Metrics.value?_assign_ne _ _ hk, Metrics.value?_assign_ne _ _ hk, hacc]) h' h
    · rw [hstep x hx i] at h'
      split at h
      · simp [throw, throwThe, MonadExceptOf.throw, Except.bind] at h
      · rename_i heq
        rw [heq] at h'
        exact ih _ _ _ hacc h' h
      · rename_i v heq
        rw [heq] at h'
        exact ih _ _ _ (by rw [Metrics.value?_assign, Metrics.value?_assign, hacc]) h' h

end SidekiqPlugin

/-! ## When `getQueueLatency` returns -/

namespace SidekiqPlugin

/-- The loop panics when the iteration of one of its queues does. -/
theorem queueLatencyLoop_error_of_mem (sp : SidekiqPlugin) (rt : Runtime) (pfx q : String)
    (p : GoPanic) (hstep : ∀ i, queueLatencyStep sp rt pfx i q = Except.error p)
    (qs : List String) (hq : q ∈ qs) (i : Nat) (acc : Metrics) :
    ∃ p', queueLatencyLoop sp rt pfx qs i acc = Except.error p' := by
  induction qs generalizing i acc with
  | nil => simp at hq
  | cons x qs ih =>
    unfold queueLatencyLoop
    cases hx : queueLatencyStep sp rt pfx i x with
    | error p' => exact ⟨p', rfl⟩
    | ok r =>
      have hne : q ≠ x := by
        intro hqx
        subst hqx
        rw [hstep i] at hx
        cases hx
      have hmem : q ∈ qs := by
        rcases List.mem_cons.mp hq with h1 | h1
        · exact absurd h1 hne
        · exact h1
      cases r with
      | none => exact ih hmem _ _
      | some v => exact ih hmem _ _

/-- `getQueueLatency` returns a mapping exactly when no queue's oldest entry decodes to an
object whose `enqueued_at` is not a number. -/
theorem getQueueLatency_ok_iff (sp : SidekiqPlugin) (rt : Runtime) :
    (∃ latency, sp.getQueueLatency rt = Except.ok latency) ↔ sp.EnqueuedAtTyped rt := by
  constructor
  · rintro ⟨latency, hl⟩ q hq entry job v he hd hv
    by_contra hnot
    have hnot' : ∀ t, v ≠ JVal.number t := fun t ht => hnot ⟨t, ht⟩
    rw [← queueKey_eq] at he
    obtain ⟨p', hp'⟩ := queueLatencyLoop_error_of_mem sp rt _ q GoPanic.typeAssertion
      (fun i => queueLatencyStep_mistyped sp rt _ q i entry job v he hd hv hnot')
      sp.queues hq 0 Metrics.empty
    unfold getQueueLatency at hl
    unfold queues at hp'
    rw [hl] at hp'
    cases hp'
  · exact getQueueLatency_ok sp rt

end SidekiqPlugin

/-! ## The claims -/

/-! ### C1: the key namer -/

/-- C1: `addNamespace "" k` is `k`, and for a non-empty namespace `ns` the key
`addNamespace ns k` is `ns ++ ":" ++ k`. -/
theorem addNamespace_spec (ns k : String) :
    addNamespace "" k = k ∧ (ns ≠ "" → addNamespace ns k = ns ++ ":" ++ k) := by
  constructor
  · rfl
  · intro h
    unfold addNamespace
    rw [if_neg h]

/-! ### C2: transport failures -/

/-- C2, as stated, fails on the store `downClient`, none of whose reads succeeds:
`FetchMetrics` returns the `nil` error and a mapping with the seven fixed metrics at `0`. -/
theorem FetchMetrics_on_failing_store :
    IsFailure (downClient.Get "stat:processed").2 ∧
      downPlugin.FetchMetrics sampleRuntime =
        Except.ok
          ([("processed", Value.uint64 0), ("failed", Value.uint64 0), ("busy", Value.uint64 0),
            ("enqueued", Value.uint64 0), ("schedule", Value.uint64 0),
            ("retry", Value.uint64 0), ("dead", Value.uint64 0)], none) :=
  ⟨⟨_, rfl⟩, rfl⟩

/-- C2, amended: a transport failure on a read does not make `FetchMetrics` fail. For
every store, whatever errors its reads answer with, the error `FetchMetrics` returns is
`nil` and the mapping it returns holds the seven fixed metrics; it returns whenever no
oldest queue entry carries an `enqueued_at` that is not a number. A helper whose read
answers with an error other than `redis.Nil` goes on with the value returned alongside
the error; a failed `LRANGE` that returns no entry gives its queue the latency `0.0`. -/
theorem FetchMetrics_never_fails (sp : SidekiqPlugin) (rt : Runtime) :
    (∀ m e, sp.FetchMetrics rt = Except.ok (m, e) →
        e = none ∧ ∀ k ∈ fixedNames, (m.value? k).isSome = true)
      ∧ (sp.EnqueuedAtTyped rt → ∃ m, sp.FetchMetrics rt = Except.ok (m, none))
      ∧ (∀ key, IsFailure (sp.Client.Get key).2 →
          sp.get key = (ParseUint (sp.Client.Get key).1).1)
      ∧ (∀ key, IsFailure (sp.Client.ZCard key).2 →
          sp.zCard key = uint64OfInt64 (sp.Client.ZCard key).1)
      ∧ (∀ key, IsFailure (sp.Client.SMembers key).2 →
          sp.sMembers key = (sp.Client.SMembers key).1)
      ∧ (∀ key f, IsFailure (sp.Client.HGet key f).2 →
          sp.hGet key f = (ParseUint (sp.Client.HGet key f).1).1)
      ∧ (∀ key, IsFailure (sp.Client.LLen key).2 →
          sp.lLen key = uint64OfInt64 (sp.Client.LLen key).1)
      ∧ (∀ pfx q i, IsFailure (sp.Client.LRange (pfx ++ q) (-1) (-1)).2 →
          (sp.Client.LRange (pfx ++ q) (-1) (-1)).1 = [] →
          SidekiqPlugin.queueLatencyStep sp rt pfx i q
            = Except.ok (some (Value.float64 Float64.zero))) := by
  refine ⟨?_, SidekiqPlugin.FetchMetrics_ok sp rt, ?_, ?_, ?_, ?_, ?_, ?_⟩
  rotate_right
  · intro pfx q i _ hnil
    apply SidekiqPlugin.queueLatencyStep_empty
    unfold Client.oldestEntry
    rw [hnil]
    rfl
  · intro m e h
    obtain ⟨he, latency, hl, rfl⟩ := SidekiqPlugin.FetchMetrics_inv sp rt m e h
    exact ⟨he, fun k hk => SidekiqPlugin.merged_fixed_isSome sp rt latency hl k hk⟩
  · rintro key ⟨msg, hmsg⟩
    unfold SidekiqPlugin.get
    rcases hr : sp.Client.Get key with ⟨val, err⟩
    rw [hr] at hmsg
    simp only at hmsg
    subst hmsg
    simp
  · rintro key ⟨msg, hmsg⟩
    unfold SidekiqPlugin.zCard
    rcases hr : sp.Client.ZCard key with ⟨val, err⟩
    rw [hr] at hmsg
    simp only at hmsg
    subst hmsg
    simp
  · rintro key ⟨msg, hmsg⟩
    unfold SidekiqPlugin.sMembers
    rcases hr : sp.Client.SMembers key with ⟨val, err⟩
    rw [hr] at hmsg
    simp only at hmsg
    subst hmsg
    simp
  · rintro key f ⟨msg, hmsg⟩
    unfold SidekiqPlugin.hGet
    rcases hr : sp.Client.HGet key f with ⟨val, err⟩
    rw [hr] at hmsg
    simp only at hmsg
    subst hmsg
    simp
  · rintro key ⟨msg, hmsg⟩
    unfold SidekiqPlugin.lLen
    rcases hr : sp.Client.LLen key with ⟨val, err⟩
    rw [hr] at hmsg
    simp only at hmsg
    subst hmsg
    simp

/-! ### C3: busy workers -/

/-- C3: when the reads succeed, `getBusy` is the sum, in `uint64` arithmetic, of the `busy`
fields of the members of the set at `addNamespace ns "processes"`, a missing hash or
field counting as `0`; the ten zeros of the working slice add nothing. An empty ProcessSet
gives `0`, and two members with `busy` fields `3` and `5` give `8`. -/
theorem getBusy_eq_sum (sp : SidekiqPlugin) (h : sp.Client.ReadsSucceed) :
    sp.getBusy =
        ((sp.Client.members (addNamespace sp.Namespace "processes")).map
          (fun p => busyCount (sp.Client.hashField (addNamespace sp.Namespace p) "busy"))).sum
          % 2 ^ 64
      ∧ (sp.Client.members (addNamespace sp.Namespace "processes") = [] → sp.getBusy = 0)
      ∧ (∀ p₁ p₂, sp.Client.members (addNamespace sp.Namespace "processes") = [p₁, p₂] →
          sp.Client.hashField (addNamespace sp.Namespace p₁) "busy" = some "3" →
          sp.Client.hashField (addNamespace sp.Namespace p₂) "busy" = some "5" →
          sp.getBusy = 8) := by
  have hsum : sp.getBusy =
      ((sp.Client.members (addNamespace sp.Namespace "processes")).map
        (fun p => busyCount (sp.Client.hashField (addNamespace sp.Namespace p) "busy"))).sum
        % 2 ^ 64 := by
    rw [SidekiqPlugin.getBusy_eq, SidekiqPlugin.sMembers_eq_members sp h]
    simp only [SidekiqPlugin.hGet_eq_busyCount sp h]
    rfl
  refine ⟨hsum, ?_, ?_⟩
  · intro he
    rw [hsum, he]
    rfl
  · intro p₁ p₂ hm h₁ h₂
    rw [hsum, hm]
    simp only [List.map_cons, List.map_nil, h₁, h₂]
    decide

/-- The store `sampleClient` has the processes `p1` and `p2` with `busy` fields `3` and `5`:
its reads succeed and `getBusy` is `8`. -/
theorem getBusy_eq_sum_witness :
    sampleClient.ReadsSucceed ∧ samplePlugin.getBusy = 8 :=
  ⟨sampleClient_readsSucceed,
    (getBusy_eq_sum samplePlugin sampleClient_readsSucceed).2.2 "p1" "p2"
      (by rfl) (by rfl) (by rfl)⟩

/-! ### C4: enqueued jobs -/

/-- C4: when the reads succeed, `getEnqueued` is the sum, over the members `q` of the set
at `addNamespace ns "queues"`, of the length of the list at `addNamespace ns ("queue:" ++ q)`,
a missing list counting as `0` (`queueLengths` are these lengths). It is that sum under the
limits of Redis (fewer than `2 ^ 32` entries in a list, at most `2 ^ 32` keys), indeed
exactly when the sum is below `2 ^ 64`, and the sum modulo `2 ^ 64` in general. The key is
`"queue:" ++ q` for the empty namespace and `ns ++ ":queue:" ++ q` otherwise; as a string
it differs from `"queue:" ++ ns ++ ":" ++ q` for every namespace but `queue`,
`queue:queue`, …, for which the two layouts are one string. `getQueueLatency` reads the
list at the same key: the entry it stores for `q` is fixed by the oldest entry at that key
(`0.0` when there is none, no entry when it does not decode, `now - enqueued_at` or `0.0`
when it decodes) and by no other list. -/
theorem getEnqueued_eq_sum (sp : SidekiqPlugin) (h : sp.Client.ReadsSucceed) :
    ((∀ n ∈ sp.queueLengths, n < 2 ^ 32) → sp.queueLengths.length ≤ 2 ^ 32 →
        sp.getEnqueued = sp.queueLengths.sum)
      ∧ (sp.getEnqueued = sp.queueLengths.sum ↔ sp.queueLengths.sum < 2 ^ 64)
      ∧ sp.getEnqueued = sp.queueLengths.sum % 2 ^ 64
      ∧ (∀ q, sp.Namespace = "" → addNamespace sp.Namespace ("queue:" ++ q) = "queue:" ++ q)
      ∧ (∀ q, sp.Namespace ≠ "" →
          addNamespace sp.Namespace ("queue:" ++ q) = sp.Namespace ++ ":queue:" ++ q)
      ∧ (∀ q, addNamespace sp.Namespace ("queue:" ++ q) = "queue:" ++ sp.Namespace ++ ":" ++ q
          ↔ ∃ k, sp.Namespace = queueChain k)
      ∧ (∀ (rt : Runtime) (latency : Metrics) (i : Nat) (q : String),
          sp.getQueueLatency rt = Except.ok latency →
          (sp.Client.members (addNamespace sp.Namespace "queues")).Nodup →
          (sp.Client.members (addNamespace sp.Namespace "queues"))[i]? = some q →
          (sp.Client.oldestEntry (addNamespace sp.Namespace ("queue:" ++ q)) = none →
              latency.value? ("QueueLatency." ++ q) = some (Value.float64 Float64.zero))
            ∧ (∀ entry,
                sp.Client.oldestEntry (addNamespace sp.Namespace ("queue:" ++ q)) = some entry →
                rt.Unmarshal entry = none →
                latency.value? ("QueueLatency." ++ q) = none)
            ∧ (∀ entry job t,
                sp.Client.oldestEntry (addNamespace sp.Namespace ("queue:" ++ q)) = some entry →
                rt.Unmarshal entry = some job →
                job.lookup "enqueued_at" = some (JVal.number t) →
                latency.value? ("QueueLatency." ++ q) =
                  some (Value.float64 (Float64.sub (Float64.ofInt64 (rt.Unix i)) t)))
            ∧ (∀ entry job,
                sp.Client.oldestEntry (addNamespace sp.Namespace ("queue:" ++ q)) = some entry →
                rt.Unmarshal entry = some job →
                job.lookup "enqueued_at" = none →
                latency.value? ("QueueLatency." ++ q) = some (Value.float64 Float64.zero)))
      ∧ (∀ (sp' : SidekiqPlugin) (rt : Runtime), sp'.Namespace = sp.Namespace →
          sp'.queues = sp.queues →
          (∀ q ∈ sp.queues,
            sp'.Client.LRange (addNamespace sp.Namespace ("queue:" ++ q)) (-1) (-1)
              = sp.Client.LRange (addNamespace sp.Namespace ("queue:" ++ q)) (-1) (-1)) →
          sp'.getQueueLatency rt = sp.getQueueLatency rt)
      ∧ (∀ rt : Runtime, sp.EnqueuedAtTyped rt →
          ∃ latency, sp.getQueueLatency rt = Except.ok latency) := by
  have hsum : sp.getEnqueued = sp.queueLengths.sum % 2 ^ 64 := by
    rw [SidekiqPlugin.getEnqueued_eq, SidekiqPlugin.sMembers_eq_members sp h]
    simp only [SidekiqPlugin.lLen_eq_listLength sp h, addNamespace_append]
    rfl
  have hiff : sp.getEnqueued = sp.queueLengths.sum ↔ sp.queueLengths.sum < 2 ^ 64 := by
    constructor
    · intro he
      rw [← he, hsum]
      exact Nat.mod_lt _ (by positivity)
    · intro hlt
      rw [hsum, Nat.mod_eq_of_lt hlt]
  refine ⟨?_, hiff, hsum, ?_, ?_, ?_, ?_, ?_, ?_⟩
  · intro hlen hcount
    apply hiff.mpr
    have hle : sp.queueLengths.sum ≤ sp.queueLengths.length • (2 ^ 32 - 1) :=
      List.sum_le_card_nsmul _ _ (fun n hn => by have := hlen n hn; omega)
    have hmul : sp.queueLengths.length * (2 ^ 32 - 1) ≤ 2 ^ 32 * (2 ^ 32 - 1) :=
      Nat.mul_le_mul_right _ hcount
    rw [smul_eq_mul] at hle
    have hlt : 2 ^ 32 * (2 ^ 32 - 1) < 2 ^ 64 := by norm_num
    omega
  · intro q h0
    rw [h0]
    rfl
  · intro q h0
    unfold addNamespace
    rw [if_neg h0, String.append_assoc, String.append_assoc, ← String.append_assoc ":" "queue:" q]
    rfl
  · intro q
    exact queueKey_eq_swapped_iff _ q
  · intro rt latency i q hl hnd hq
    have hqs : sp.queues = sp.Client.members (addNamespace sp.Namespace "queues") :=
      SidekiqPlugin.sMembers_eq_members sp h _
    rw [← hqs] at hnd hq
    obtain ⟨r, hr, hv⟩ := SidekiqPlugin.latency_value?_at sp rt latency hl hnd i q hq
    rw [← metricName_queueLatency, hv, ← addNamespace_append]
    refine ⟨?_, ?_, ?_, ?_⟩
    · intro he
      rw [SidekiqPlugin.queueLatencyStep_empty sp rt _ q i he] at hr
      exact (Except.ok.inj hr).symm
    · intro entry he hd
      rw [SidekiqPlugin.queueLatencyStep_undecodable sp rt _ q i entry he hd] at hr
      exact (Except.ok.inj hr).symm
    · intro entry job t he hd ht
      rw [SidekiqPlugin.queueLatencyStep_number sp rt _ q i entry job t he hd ht] at hr
      exact (Except.ok.inj hr).symm
    · intro entry job he hd ht
      rw [SidekiqPlugin.queueLatencyStep_absent sp rt _ q i entry job he hd ht] at hr
      exact (Except.ok.inj hr).symm
  · intro sp' rt hns hq hl
    exact SidekiqPlugin.getQueueLatency_congr sp sp' rt hns hq hl
  · intro rt htyped
    exact SidekiqPlugin.getQueueLatency_ok sp rt htyped

/-- On `sampleClient` the reads succeed, the lists of `default`, `low` and `broken` hold
four, no and one job, and `getEnqueued` is `5`. -/
theorem getEnqueued_eq_sum_witness :
    sampleClient.ReadsSucceed ∧ samplePlugin.queueLengths = [4, 0, 1] ∧
      samplePlugin.getEnqueued = 5 :=
  ⟨sampleClient_readsSucceed, by decide,
    ((getEnqueued_eq_sum samplePlugin sampleClient_readsSucceed).1
      (by decide) (by decide)).trans (by decide)⟩

/-! ### C5: the queue latency -/

/-- C5: let `q` be the queue at position `i` of the QueueSet and let its oldest list entry
decode (`job` are the fields of the decoded object). Then every snapshot `FetchMetrics`
returns maps `"QueueLatency." ++ q`, the queue name as it stands, to
`float64(now) - enqueued_at` when `enqueued_at` is a number, where `now` is the clock
reading of iteration `i`; the value is not clamped (it is negative when `enqueued_at`
is later than `float64(now)`); the entry is `0.0` when the field is absent; and an
`enqueued_at` of `T` read at time `T + 42` gives `42.0`. `FetchMetrics` returns a snapshot
whenever no queue's `enqueued_at` has another type than number. -/
theorem queueLatency_value (sp : SidekiqPlugin) (rt : Runtime) (hnd : sp.queues.Nodup)
    (i : Nat) (q : String) (hq : sp.queues[i]? = some q)
    (entry : String) (job : List (String × JVal))
    (he : sp.Client.oldestEntry (addNamespace sp.Namespace ("queue:" ++ q)) = some entry)
    (hd : rt.Unmarshal entry = some job) :
    (sp.EnqueuedAtTyped rt → ∃ m, sp.FetchMetrics rt = Except.ok (m, none))
      ∧ ∀ m e, sp.FetchMetrics rt = Except.ok (m, e) →
        (∀ t, job.lookup "enqueued_at" = some (JVal.number t) →
          m.value? ("QueueLatency." ++ q) =
              some (Value.float64 (Float64.sub (Float64.ofInt64 (rt.Unix i)) t))
            ∧ ∀ a b, Float64.ofInt64 (rt.Unix i) = Float64.finite a → t = Float64.finite b →
                a < b →
                Float64.isNegative (Float64.sub (Float64.ofInt64 (rt.Unix i)) t) = true)
        ∧ (job.lookup "enqueued_at" = none →
            m.value? ("QueueLatency." ++ q) = some (Value.float64 Float64.zero))
        ∧ (∀ T : Int, 0 ≤ T → T + 42 < 2 ^ 53 → rt.Unix i = T + 42 →
            job.lookup "enqueued_at" = some (JVal.number (Float64.ofInt64 T)) →
            m.value? ("QueueLatency." ++ q) = some (Value.float64 (Float64.ofInt64 42))) := by
  refine ⟨SidekiqPlugin.FetchMetrics_ok sp rt, ?_⟩
  intro m e h
  obtain ⟨_, latency, hl, rfl⟩ := SidekiqPlugin.FetchMetrics_inv sp rt m e h
  obtain ⟨r, hr, hv⟩ := SidekiqPlugin.latency_value?_at sp rt latency hl hnd i q hq
  rw [← addNamespace_append] at he
  rw [← metricName_queueLatency, SidekiqPlugin.merged_value?_queueLatency sp rt latency hl, hv]
  have hnum : ∀ t, job.lookup "enqueued_at" = some (JVal.number t) →
      r = some (Value.float64 (Float64.sub (Float64.ofInt64 (rt.Unix i)) t)) := by
    intro t ht
    rw [SidekiqPlugin.queueLatencyStep_number sp rt _ q i entry job t he hd ht] at hr
    exact (Except.ok.inj hr).symm
  refine ⟨?_, ?_, ?_⟩
  · intro t ht
    refine ⟨hnum t ht, ?_⟩
    intro a b ha hb hab
    rw [ha, hb]
    exact Float64.isNegative_sub a b hab
  · intro ht
    rw [SidekiqPlugin.queueLatencyStep_absent sp rt _ q i entry job he hd ht] at hr
    exact (Except.ok.inj hr).symm
  · intro T hT0 hT hnow ht
    rw [hnum _ ht, hnow]
    have h1 : (T + 42).natAbs < 2 ^ 53 := by omega
    have h2 : T.natAbs < 2 ^ 53 := by omega
    rw [Float64.sub_ofInt64 _ _ h1 h2]
    congr 3
    omega

/-- On `sampleClient` the oldest job of `default` was enqueued at 1700000000 and the clock
shows 1700000042: the snapshot maps `QueueLatency.default` to `42.0`. -/
theorem queueLatency_value_witness :
    ∃ m, samplePlugin.FetchMetrics sampleRuntime = Except.ok (m, none) ∧
      m.value? "QueueLatency.default" = some (Value.float64 (Float64.ofInt64 42)) :=
  have T := queueLatency_value samplePlugin sampleRuntime (by decide) 0 "default" (by rfl)
    "\x7b\"enqueued_at\":1700000000\x7d"
    [("enqueued_at", JVal.number (Float64.ofInt64 1700000000))] (by decide) (by rfl)
  Exists.elim (T.1 samplePlugin_typed) fun m hm =>
    ⟨m, hm, (T.2 m none hm).2.2 1700000000 (by norm_num) (by norm_num) (by rfl) (by rfl)⟩

/-! ### C6: an oldest entry that does not decode -/

/-- C6 at the store `mistypedClient`, whose reads succeed: the oldest entry of the queue
`broken` does not decode, and `FetchMetrics` does not return, because the oldest entry
of the other queue, `mailers`, has a string as its `enqueued_at` and the type assertion
panics. -/
theorem FetchMetrics_panics_beside_undecodable :
    mistypedClient.ReadsSucceed
      ∧ "broken" ∈ mistypedPlugin.queues
      ∧ mistypedClient.oldestEntry (addNamespace "" ("queue:" ++ "broken")) = some "not json"
      ∧ sampleRuntime.Unmarshal "not json" = none
      ∧ mistypedPlugin.FetchMetrics sampleRuntime = Except.error GoPanic.typeAssertion :=
  ⟨mistypedClient_readsSucceed, by decide, by decide, rfl, rfl⟩

/-- The part of C6 that holds: when no queue's oldest entry carries an `enqueued_at` of
another type than number, and the oldest entry of the queue `q` does not decode, then
`FetchMetrics` returns a snapshot without an entry `"QueueLatency." ++ q` that holds the
seven fixed metrics, and every other name has the value it has on any store that
differs only in what `LRANGE` answers for the list of `q`. -/
theorem FetchMetrics_tolerates_undecodable (sp : SidekiqPlugin) (rt : Runtime)
    (htyped : sp.EnqueuedAtTyped rt) (q : String) (entry : String)
    (he : sp.Client.oldestEntry (addNamespace sp.Namespace ("queue:" ++ q)) = some entry)
    (hd : rt.Unmarshal entry = none) :
    ∃ m, sp.FetchMetrics rt = Except.ok (m, none)
      ∧ m.value? ("QueueLatency." ++ q) = none
      ∧ (∀ k ∈ fixedNames, (m.value? k).isSome = true)
      ∧ ∀ (sp' : SidekiqPlugin) (m' : Metrics) (e' : Err),
          sp'.Namespace = sp.Namespace →
          sp'.Client.Get = sp.Client.Get → sp'.Client.ZCard = sp.Client.ZCard →
          sp'.Client.SMembers = sp.Client.SMembers → sp'.Client.HGet = sp.Client.HGet →
          sp'.Client.LLen = sp.Client.LLen →
          (∀ key a b, key ≠ addNamespace sp.Namespace ("queue:" ++ q) →
            sp'.Client.LRange key a b = sp.Client.LRange key a b) →
          sp'.FetchMetrics rt = Except.ok (m', e') →
          ∀ k, k ≠ "QueueLatency." ++ q → m'.value? k = m.value? k := by
  obtain ⟨latency, hl⟩ := SidekiqPlugin.getQueueLatency_ok sp rt htyped
  rw [← addNamespace_append] at he
  have hskip : ∀ i, SidekiqPlugin.queueLatencyStep sp rt (addNamespace sp.Namespace "queue:") i q
      = Except.ok none :=
    fun i => SidekiqPlugin.queueLatencyStep_undecodable sp rt _ q i entry he hd
  refine ⟨_, SidekiqPlugin.FetchMetrics_of_latency sp rt latency hl, ?_,
    fun k hk => SidekiqPlugin.merged_fixed_isSome sp rt latency hl k hk, ?_⟩
  · rw [← metricName_queueLatency, SidekiqPlugin.merged_value?_queueLatency sp rt latency hl]
    have hl2 := hl
    unfold SidekiqPlugin.getQueueLatency at hl2
    rw [SidekiqPlugin.queueLatencyLoop_value?_skip sp rt _ q hskip _ _ _ _ hl2]
    rfl
  · intro sp' m' e' hns hG hZ hS hH hL hR h' k hk
    obtain ⟨_, latency', hl', rfl⟩ := SidekiqPlugin.FetchMetrics_inv sp' rt m' e' h'
    rw [SidekiqPlugin.merged_value? sp' rt latency' hl', SidekiqPlugin.merged_value? sp rt latency hl]
    have hstats : sp'.getStats SidekiqPlugin.statsField = sp.getStats SidekiqPlugin.statsField := by
      obtain ⟨⟨G, Z, S, H, L, R⟩, ns⟩ := sp
      obtain ⟨⟨G', Z', S', H', L', R'⟩, ns'⟩ := sp'
      simp only at hns hG hZ hS hH hL
      subst hns hG hZ hS hH hL
      rfl
    have hpf : sp'.getProcessedFailed = sp.getProcessedFailed := by
      obtain ⟨⟨G, Z, S, H, L, R⟩, ns⟩ := sp
      obtain ⟨⟨G', Z', S', H', L', R'⟩, ns'⟩ := sp'
      simp only at hns hG hZ hS hH hL
      subst hns hG hZ hS hH hL
      rfl
    have hqs : sp'.queues = sp.queues := by
      unfold SidekiqPlugin.queues SidekiqPlugin.sMembers
      rw [hns, hS]
    have hlat : latency'.value? k = latency.value? k := by
      unfold SidekiqPlugin.getQueueLatency at hl hl'
      unfold SidekiqPlugin.queues at hqs
      simp only at hl hl'
      rw [hqs, hns] at hl'
      rw [← metricName_queueLatency] at hk
      refine SidekiqPlugin.queueLatencyLoop_agree sp sp' rt _ q k hk ?_ _ _ _ _ _ _ rfl hl' hl
      intro x hx i
      apply SidekiqPlugin.queueLatencyStep_congr
      apply hR
      rw [addNamespace_append]
      intro hkey
      apply hx
      have hd := congrArg String.data hkey
      unfold addNamespace at hd
      split at hd
      · simp only [String.data_append] at hd
        exact String.ext (List.append_cancel_left hd)
      · simp only [String.data_append] at hd
        exact String.ext (List.append_cancel_left (List.append_cancel_left hd))
    rw [hstats, hpf, hlat]

/-! ### C7: the empty queue system -/

/-- C7: on the empty queue system, for every namespace, `FetchMetrics` returns a mapping
whose keys are exactly `processed`, `failed`, `busy`, `enqueued`, `schedule`, `retry` and
`dead`, each mapped to `0`; no name `"QueueLatency." ++ q` has an entry, and the tag
`latency` passed to `getStats` adds nothing. -/
theorem FetchMetrics_empty_system (sp : SidekiqPlugin) (rt : Runtime) (h : sp.EmptySystem) :
    ∃ m, sp.FetchMetrics rt = Except.ok (m, none)
      ∧ (∀ k, k ∈ m.names ↔ k ∈ fixedNames)
      ∧ (∀ k ∈ fixedNames, m.value? k = some (Value.uint64 0))
      ∧ (∀ q, m.value? ("QueueLatency." ++ q) = none)
      ∧ sp.getStats ["busy", "enqueued", "schedule", "retry", "dead", "latency"]
          = sp.getStats ["busy", "enqueued", "schedule", "retry", "dead"] := by
  have hqs : sp.queues = [] := SidekiqPlugin.sMembers_of_empty sp _ h.queues
  have hl : sp.getQueueLatency rt = Except.ok Metrics.empty := by
    unfold SidekiqPlugin.getQueueLatency
    unfold SidekiqPlugin.queues at hqs
    simp only
    rw [hqs]
    rfl
  have hbusy : sp.getBusy = 0 := by
    rw [SidekiqPlugin.getBusy_eq, SidekiqPlugin.sMembers_of_empty sp _ h.processes]
    rfl
  have henq : sp.getEnqueued = 0 := by
    rw [SidekiqPlugin.getEnqueued_eq, SidekiqPlugin.sMembers_of_empty sp _ h.queues]
    rfl
  have hsched : sp.getSchedule = 0 := SidekiqPlugin.zCard_of_absent sp _ h.schedule
  have hretry : sp.getRetry = 0 := SidekiqPlugin.zCard_of_absent sp _ h.retry
  have hdead : sp.getDead = 0 := SidekiqPlugin.zCard_of_absent sp _ h.dead
  have hproc : sp.getProcessed = 0 := SidekiqPlugin.get_of_absent sp _ h.processed
  have hfail : sp.getFailed = 0 := SidekiqPlugin.get_of_absent sp _ h.failed
  have hval : ∀ k, (SidekiqPlugin.mergeMaps
      [sp.getStats SidekiqPlugin.statsField, sp.getProcessedFailed, Metrics.empty]).value? k
      = if k ∈ fixedNames then some (Value.uint64 0) else none := by
    intro k
    rw [SidekiqPlugin.merged_value? sp rt _ hl, SidekiqPlugin.getProcessedFailed_value?,
      SidekiqPlugin.getStats_value?, hbusy, henq, hsched, hretry, hdead, hproc, hfail,
      Metrics.value?_empty]
    simp only [fixedNames, List.mem_cons, List.mem_singleton, List.not_mem_nil, or_false]
    by_cases h1 : k = "failed"
    · simp [h1]
    by_cases h2 : k = "processed"
    · simp [h2]
    by_cases h3 : k = "dead"
    · simp [h3]
    by_cases h4 : k = "retry"
    · simp [h4]
    by_cases h5 : k = "schedule"
    · simp [h5]
    by_cases h6 : k = "enqueued"
    · simp [h6]
    by_cases h7 : k = "busy"
    · simp [h7]
    simp [h1, h2, h3, h4, h5, h6, h7]
  refine ⟨_, SidekiqPlugin.FetchMetrics_of_latency sp rt _ hl, ?_, ?_, ?_, rfl⟩
  · intro k
    rw [Metrics.mem_names_iff, hval]
    by_cases hk : k ∈ fixedNames <;> simp [hk]
  · intro k hk
    rw [hval, if_pos hk]
  · intro q
    rw [hval, ← metricName_queueLatency, if_neg (metricName_queueLatency_not_fixed q)]

/-- The store `emptyClient` is an empty queue system, and the snapshot of it holds `busy`
at `0` and nothing under `QueueLatency.default`. -/
theorem FetchMetrics_empty_system_witness :
    emptyPlugin.EmptySystem ∧
      ∃ m, emptyPlugin.FetchMetrics sampleRuntime = Except.ok (m, none) ∧
        m.value? "busy" = some (Value.uint64 0) ∧ m.value? "QueueLatency.default" = none :=
  ⟨emptyPlugin_emptySystem,
    Exists.elim (FetchMetrics_empty_system emptyPlugin sampleRuntime emptyPlugin_emptySystem)
      fun m hm => ⟨m, hm.1, hm.2.2.1 "busy" (by decide), hm.2.2.2.1 "default"⟩⟩

/-! ### C8: a queue without entry -/

/-- C8: for a queue `q` of the QueueSet whose list has no entry, every snapshot
`FetchMetrics` returns maps `"QueueLatency." ++ q` to `0.0`, whatever the clock shows; and
`FetchMetrics` returns a snapshot whenever no queue's `enqueued_at` has another type than
number. -/
theorem queueLatency_empty_list (sp : SidekiqPlugin) (rt : Runtime) (q : String)
    (hq : q ∈ sp.queues)
    (he : sp.Client.oldestEntry (addNamespace sp.Namespace ("queue:" ++ q)) = none) :
    (sp.EnqueuedAtTyped rt → ∃ m, sp.FetchMetrics rt = Except.ok (m, none))
      ∧ ∀ m e, sp.FetchMetrics rt = Except.ok (m, e) →
        m.value? ("QueueLatency." ++ q) = some (Value.float64 Float64.zero) := by
  refine ⟨SidekiqPlugin.FetchMetrics_ok sp rt, ?_⟩
  intro m e h
  obtain ⟨_, latency, hl, rfl⟩ := SidekiqPlugin.FetchMetrics_inv sp rt m e h
  rw [← addNamespace_append] at he
  rw [← metricName_queueLatency, SidekiqPlugin.merged_value?_queueLatency sp rt latency hl]
  unfold SidekiqPlugin.getQueueLatency at hl
  exact SidekiqPlugin.queueLatencyLoop_value?_const sp rt _ q _ _ 0 _ _ hq
    (fun i => SidekiqPlugin.queueLatencyStep_empty sp rt _ q i he) hl

/-- On `sampleClient` the list of the queue `low` is empty: the snapshot maps
`QueueLatency.low` to `0.0`. -/
theorem queueLatency_empty_list_witness :
    ∃ m, samplePlugin.FetchMetrics sampleRuntime = Except.ok (m, none) ∧
      m.value? "QueueLatency.low" = some (Value.float64 Float64.zero) :=
  have T := queueLatency_empty_list samplePlugin sampleRuntime "low" (by decide) (by decide)
  Exists.elim (T.1 samplePlugin_typed) fun m hm => ⟨m, hm, T.2 m none hm⟩

/-! ### C9: the merge -/

/-- C9: a latency name `metricName ["QueueLatency", q]` is none of the seven fixed names,
whatever `q` is, and different queues have different latency names; so the key sets of
`getStats`, `getProcessedFailed` and `getQueueLatency` are pairwise disjoint, and the
mapping `FetchMetrics` returns, like the merge of the three sub-results in any other
order, agrees with each sub-result on each of its keys. -/
theorem merge_no_key_collision (sp : SidekiqPlugin) (rt : Runtime) (latency : Metrics)
    (h : sp.getQueueLatency rt = Except.ok latency) :
    (∀ q, metricName ["QueueLatency", q] ∉ fixedNames)
      ∧ (∀ q₁ q₂, metricName ["QueueLatency", q₁] = metricName ["QueueLatency", q₂] → q₁ = q₂)
      ∧ (∀ k, ¬ (k ∈ (sp.getStats SidekiqPlugin.statsField).names
              ∧ k ∈ sp.getProcessedFailed.names)
          ∧ ¬ (k ∈ (sp.getStats SidekiqPlugin.statsField).names ∧ k ∈ latency.names)
          ∧ ¬ (k ∈ sp.getProcessedFailed.names ∧ k ∈ latency.names))
      ∧ sp.FetchMetrics rt = Except.ok (SidekiqPlugin.mergeMaps
          [sp.getStats SidekiqPlugin.statsField, sp.getProcessedFailed, latency], none)
      ∧ (∀ ms : List Metrics,
          ms.Perm [sp.getStats SidekiqPlugin.statsField, sp.getProcessedFailed, latency] →
          ∀ c ∈ [sp.getStats SidekiqPlugin.statsField, sp.getProcessedFailed, latency],
          ∀ k v, Metrics.value? c k = some v →
            (SidekiqPlugin.mergeMaps ms).value? k = some v) := by
  refine ⟨metricName_queueLatency_not_fixed, metricName_queueLatency_injective,
    SidekiqPlugin.names_disjoint sp rt latency h,
    SidekiqPlugin.FetchMetrics_of_latency sp rt latency h, ?_⟩
  intro ms hperm c hc k v hv
  have hwf : ∀ c ∈ ms, Metrics.WF c := by
    intro c hc
    have hc' := hperm.mem_iff.mp hc
    simp only [List.mem_cons, List.mem_singleton, List.not_mem_nil, or_false] at hc'
    rcases hc' with rfl | rfl | rfl
    · exact SidekiqPlugin.getStats_wf _ _
    · exact SidekiqPlugin.getProcessedFailed_wf _
    · exact SidekiqPlugin.getQueueLatency_wf sp rt _ h
  rw [SidekiqPlugin.mergeMaps_value? ms hwf]
  have hmem : ∀ (c : Metrics) (w : Value), Metrics.value? c k = some w → k ∈ Metrics.names c := by
    intro c w hw
    rw [Metrics.mem_names_iff, hw]
    rfl
  have hdis := SidekiqPlugin.names_disjoint sp rt latency h k
  apply findSome?_eq_some_of_agree
  · exact ⟨c, List.mem_reverse.mpr (hperm.mem_iff.mpr hc), hv⟩
  · intro c' hc' w hw
    have hc'' := hperm.mem_iff.mp (List.mem_reverse.mp hc')
    simp only [List.mem_cons, List.mem_singleton, List.not_mem_nil, or_false] at hc hc''
    have hk := hmem c v hv
    have hk' := hmem c' w hw
    rcases hc with hc | hc | hc <;> rcases hc'' with hc'' | hc'' | hc'' <;>
      rw [hc] at hk hv <;> rw [hc''] at hk' hw
    all_goals first
      | (rw [hv] at hw; exact (Option.some.inj hw).symm)
      | (exfalso; tauto)

/-- On `sampleClient` the latency names are `QueueLatency.default` and `QueueLatency.low`,
and `FetchMetrics` returns the merge of the three sub-results. -/
theorem merge_no_key_collision_witness :
    ∃ latency, samplePlugin.getQueueLatency sampleRuntime = Except.ok latency ∧
      samplePlugin.FetchMetrics sampleRuntime = Except.ok (SidekiqPlugin.mergeMaps
        [samplePlugin.getStats SidekiqPlugin.statsField, samplePlugin.getProcessedFailed,
          latency], none) :=
  Exists.elim (SidekiqPlugin.getQueueLatency_ok samplePlugin sampleRuntime samplePlugin_typed)
    fun latency hl =>
      ⟨latency, hl, (merge_no_key_collision samplePlugin sampleRuntime latency hl).2.2.2.1⟩

/-! ### C10: the type assertion -/

/-- C10 at the store `mistypedClient`, whose reads succeed: the oldest entry of the queue
`mailers` is the object `{"enqueued_at":"2023-11-14"}`, and `getQueueLatency` panics in the
type assertion instead of returning a mapping. -/
theorem getQueueLatency_panics_on_string :
    mistypedClient.ReadsSucceed
      ∧ mistypedClient.oldestEntry (addNamespace "" ("queue:" ++ "mailers"))
          = some "\x7b\"enqueued_at\":\"2023-11-14\"\x7d"
      ∧ List.lookup "enqueued_at"
          ((sampleRuntime.Unmarshal "\x7b\"enqueued_at\":\"2023-11-14\"\x7d").getD [])
          = some (JVal.string "2023-11-14")
      ∧ mistypedPlugin.getQueueLatency sampleRuntime = Except.error GoPanic.typeAssertion :=
  ⟨mistypedClient_readsSucceed, by decide, rfl, rfl⟩

end Sidekiq
